import Mathlib

/-!
# elfview: a verification development

Shallow embedding of `src/elfview.cpp`, a viewer for the file header and the section
header table of an ELF object file, together with theorems about it.

Conventions of the embedding.

* A byte is a `Fin 256`; a file is the list of its bytes.
* Text written to `cout` is a `String` holding one character per output byte
  (a raw byte `b` is the character with code point `b`).
* Records are read with `reinterpret_cast` into raw storage. The layouts are
  those of `<elf.h>` on a little-endian LP64 host: fixed field offsets, fields
  little-endian, `streamoff` and `streamsize` 64-bit signed.
* Storage that the program leaves uninitialised is a parameter (its prior
  content); a short read overwrites only a prefix of it.
* Memory: a `vector::resize` to more bytes than the file holds is served or
  refused (`bad_alloc`) as the allocator decides; the allocator is a parameter,
  `can_allocate`. Allocations no larger than the file are taken to be served.
-/

namespace ElfView

/-- One octet of file or memory content. -/
abbrev Byte := Fin 256

/-- Text form of a run of raw bytes as sent to `cout`: one character per byte. -/
def bytesToString (bs : List Byte) : String :=
  String.mk (bs.map fun b => Char.ofNat b.val)

/-! ## Label lookup (elfview.cpp:59-68) -/

/-- Embedding of `to_str`: the label at position `index` of `table`, or
`default_value` when the position is at or beyond the table's size. -/
def to_str (table : List String) (index : Nat) (default_value : String) : String :=
  if h : index < table.length then table.get ⟨index, h⟩ else default_value

/-! ## Section names (elfview.cpp:264-289) -/

/-- Embedding of `SectionHeader::get_section_name`. `List.indexOf` plays
`std::find`: the distance from `start` to the first NUL, or the distance to
`end()` when there is none. -/
def get_section_name (string_table_ : List Byte) (index : Nat) : List Byte :=
  if index < string_table_.length then
    let start := string_table_.drop index
    let pos := start.indexOf (0 : Byte)
    if pos ≠ start.length then start.take pos else []
  else []

/-- The name shown for a section whose `sh_name` is `sh_name`
(elfview.cpp:266-267): the resolved name, or the placeholder when it is empty. -/
def shown_section_name (string_table_ : List Byte) (sh_name : Nat) : String :=
  let section_name := get_section_name string_table_ sh_name
  if section_name.isEmpty then "No Name" else bytesToString section_name

/-- Embedding of `SectionHeader::print(const Elf_Shdr&)`, as a function of the
record's `sh_name` field (the only field it reads). -/
def print_section (string_table_ : List Byte) (sh_name : Nat) : String :=
  "sh_name (section name): " ++ shown_section_name string_table_ sh_name ++ "\n"

/-- The string table of scenario 3: the bytes of `"\0.text\0.data\0"`. -/
def scenario3_table : List Byte :=
  [0, 46, 116, 101, 120, 116, 0, 46, 100, 97, 116, 97, 0]

/-! ## Constants of `<elf.h>` used by the program -/

def EI_MAG0 : Nat := 0
def EI_MAG1 : Nat := 1
def EI_MAG2 : Nat := 2
def EI_MAG3 : Nat := 3
def EI_CLASS : Nat := 4
def EI_DATA : Nat := 5
def EI_VERSION : Nat := 6
def EI_PAD : Nat := 9
def EI_NIDENT : Nat := 16
def ELFCLASS32 : Nat := 1
def ELFCLASS64 : Nat := 2
def SHN_UNDEF : Nat := 0

/-! ## The input stream (`std::ifstream` over a regular file) -/

/-- State of the `ifstream`: the bytes of the file, the read position of its
file buffer, and the two state flags the program can raise (`badbit` is never
set: device errors are outside the model). -/
structure IFStream where
  content : List Byte
  pos : Nat
  eofbit : Bool
  failbit : Bool
deriving DecidableEq

namespace IFStream

/-- Result of `good()`. -/
def good (f : IFStream) : Bool := !f.eofbit && !f.failbit

/-- Construction of `istream::sentry` with `noskipws = true`: succeeds on a
good stream, otherwise raises `failbit`. -/
def sentry (f : IFStream) : Bool × IFStream :=
  if f.good then (true, f) else (false, { f with failbit := true })

/-- Result and effect of `tellg()`: the position, or `-1` on a failed stream. -/
def tellg (f : IFStream) : Int × IFStream :=
  let r := f.sentry
  if r.1 then ((r.2.pos : Int), r.2) else (-1, r.2)

/-- Effect of `seekg(off, beg)`: clears `eofbit`, then, unless the stream has
failed, moves the position to `off`. A negative `off` is refused by the
file buffer and raises `failbit`; a position past the end of the file is
accepted. -/
def seekg (f : IFStream) (off : Int) : IFStream :=
  let r := ({ f with eofbit := false } : IFStream).sentry
  if r.1 then
    if 0 ≤ off then { r.2 with pos := off.toNat } else { r.2 with failbit := true }
  else r.2

/-- Result and effect of `get()`: the next byte, or `EOF` (`-1`) with
`eofbit` and `failbit` raised when there is none. -/
def get (f : IFStream) : Int × IFStream :=
  let r := f.sentry
  if r.1 then
    match r.2.content[r.2.pos]? with
    | some b => ((b.val : Int), { r.2 with pos := r.2.pos + 1 })
    | none => (-1, { r.2 with eofbit := true, failbit := true })
  else (-1, r.2)

/-- Result and effect of `read(s, n)`: the bytes stored into `s` (at most `n`,
fewer when the file ends first, in which case `eofbit` and `failbit` are
raised). -/
def read (f : IFStream) (n : Nat) : List Byte × IFStream :=
  let r := f.sentry
  if r.1 then
    let data := (r.2.content.drop r.2.pos).take n
    if data.length ≠ n then
      (data, { r.2 with pos := r.2.pos + data.length, eofbit := true, failbit := true })
    else
      (data, { r.2 with pos := r.2.pos + data.length })
  else ([], r.2)

end IFStream

/-- Conversion of an unsigned 64-bit (or narrower) value to `streamoff`. -/
def to_streamoff (v : Nat) : Int :=
  if v % 2 ^ 64 < 2 ^ 63 then ((v % 2 ^ 64 : Nat) : Int) else ((v % 2 ^ 64 : Nat) : Int) - 2 ^ 64

/-- Content of an `n`-byte object whose prior content was `storage`, after a
read stored `data` at its start. -/
def overwrite (n : Nat) (storage data : List Byte) : List Byte :=
  (data ++ storage.drop data.length).take n

/-! ## Class probe (elfview.cpp:70-97) -/

/-- Embedding of `get_object_class`, with the constructor and the destructor
of its `fbackup` local spelled out. The returned value is computed before the
destructor runs. -/
def get_object_class (file : IFStream) : Int × IFStream :=
  -- fbackup::fbackup
  let t := file.tellg
  let current_ := t.1
  let file := t.2.seekg (EI_CLASS : Int)
  let c := file.get
  -- fbackup::~fbackup
  let t := c.2.tellg
  let file := if t.1 ≠ current_ then t.2.seekg current_ else t.2
  (c.1, file)

/-! ## Record layouts of `<elf.h>` -/

/-- The two address classes the program decodes. -/
inductive ElfClass where
  | elf32
  | elf64
deriving DecidableEq

/-- Value of `ELFCLASS32` / `ELFCLASS64` for a class. -/
def ElfClass.code : ElfClass → Nat
  | .elf32 => ELFCLASS32
  | .elf64 => ELFCLASS64

/-- Value of `sizeof(Elf32_Ehdr)` / `sizeof(Elf64_Ehdr)`. -/
def sizeof_Ehdr : ElfClass → Nat
  | .elf32 => 52
  | .elf64 => 64

/-- Value of `sizeof(Elf32_Shdr)` / `sizeof(Elf64_Shdr)`. -/
def sizeof_Shdr : ElfClass → Nat
  | .elf32 => 40
  | .elf64 => 64

/-- Little-endian value of a run of bytes. -/
def le_value : List Byte → Nat
  | [] => 0
  | b :: bs => b.val + 256 * le_value bs

/-- The unsigned field of `width` bytes at `offset` of the object `mem`. -/
def field (mem : List Byte) (offset width : Nat) : Nat :=
  le_value ((mem.drop offset).take width)

/-- Fields of `Elf32_Ehdr` / `Elf64_Ehdr`. -/
structure Elf_Ehdr where
  e_ident : List Byte
  e_type : Nat
  e_machine : Nat
  e_version : Nat
  e_entry : Nat
  e_phoff : Nat
  e_shoff : Nat
  e_flags : Nat
  e_ehsize : Nat
  e_phentsize : Nat
  e_phnum : Nat
  e_shentsize : Nat
  e_shnum : Nat
  e_shstrndx : Nat
deriving DecidableEq

/-- Fields of `Elf32_Shdr` / `Elf64_Shdr`. -/
structure Elf_Shdr where
  sh_name : Nat
  sh_type : Nat
  sh_flags : Nat
  sh_addr : Nat
  sh_offset : Nat
  sh_size : Nat
  sh_link : Nat
  sh_info : Nat
  sh_addralign : Nat
  sh_entsize : Nat
deriving DecidableEq

/-- The file header record held by the object `mem`. -/
def decode_Ehdr : ElfClass → List Byte → Elf_Ehdr
  | .elf32, mem =>
    { e_ident := (List.range EI_NIDENT).map fun i => mem.getD i 0
      e_type := field mem 16 2, e_machine := field mem 18 2, e_version := field mem 20 4
      e_entry := field mem 24 4, e_phoff := field mem 28 4, e_shoff := field mem 32 4
      e_flags := field mem 36 4, e_ehsize := field mem 40 2, e_phentsize := field mem 42 2
      e_phnum := field mem 44 2, e_shentsize := field mem 46 2, e_shnum := field mem 48 2
      e_shstrndx := field mem 50 2 }
  | .elf64, mem =>
    { e_ident := (List.range EI_NIDENT).map fun i => mem.getD i 0
      e_type := field mem 16 2, e_machine := field mem 18 2, e_version := field mem 20 4
      e_entry := field mem 24 8, e_phoff := field mem 32 8, e_shoff := field mem 40 8
      e_flags := field mem 48 4, e_ehsize := field mem 52 2, e_phentsize := field mem 54 2
      e_phnum := field mem 56 2, e_shentsize := field mem 58 2, e_shnum := field mem 60 2
      e_shstrndx := field mem 62 2 }

/-- The section header record held by the object `mem`. -/
def decode_Shdr : ElfClass → List Byte → Elf_Shdr
  | .elf32, mem =>
    { sh_name := field mem 0 4, sh_type := field mem 4 4, sh_flags := field mem 8 4
      sh_addr := field mem 12 4, sh_offset := field mem 16 4, sh_size := field mem 20 4
      sh_link := field mem 24 4, sh_info := field mem 28 4, sh_addralign := field mem 32 4
      sh_entsize := field mem 36 4 }
  | .elf64, mem =>
    { sh_name := field mem 0 4, sh_type := field mem 4 4, sh_flags := field mem 8 8
      sh_addr := field mem 16 8, sh_offset := field mem 24 8, sh_size := field mem 32 8
      sh_link := field mem 40 4, sh_info := field mem 44 4, sh_addralign := field mem 48 8
      sh_entsize := field mem 56 8 }

/-! ## Formatting helpers (elfview.cpp:27-57) -/

/-- Text of `out << hf(value)`: the prefix `0x` and the value in lowercase
hexadecimal. -/
def hf (value : Nat) : String :=
  "0x" ++ String.mk (Nat.toDigits 16 value)

/-- Text of `out << value` for an unsigned integer: its decimal digits. -/
def dec (value : Nat) : String :=
  String.mk (Nat.toDigits 10 value)

/-- Text of `out << c` for an `unsigned char`: the byte itself. -/
def put_char (c : Byte) : String :=
  String.singleton (Char.ofNat c.val)

/-! ## File header (elfview.cpp:99-214) -/

namespace MainHeader

/-- Embedding of `MainHeader::parse`. `header_` is the prior content of the
member that receives the record; the result is the record it holds after the
read, and the stream after the call. -/
def parse (cls : ElfClass) (header_ : List Byte) (file_ : IFStream) : Elf_Ehdr × IFStream :=
  let file_ := file_.seekg 0
  let r := file_.read (sizeof_Ehdr cls)
  (decode_Ehdr cls (overwrite (sizeof_Ehdr cls) header_ r.1), r.2)

/-- Text of the loop over the padding bytes (elfview.cpp:204-207). -/
def print_padding (e_ident : List Byte) : String :=
  String.join ((List.range' EI_PAD (EI_NIDENT - EI_PAD)).map fun i =>
    hf (e_ident.getD i 0).val ++ " ")

/-- Embedding of `MainHeader::print_e_ident`. -/
def print_e_ident (e_ident : List Byte) : String :=
  let ei_class := ["Invalid class", "32-bit objects", "64-bit objects"]
  let data_encoding := ["Invalid data encoding", "Little-endian", "Big-endian"]
  let version := ["Invalid version", "Current version"]
  "[ELF Header]" ++ "\n" ++
  "e_ident:" ++ "\n" ++
  "\tFile identification [" ++ dec EI_MAG0 ++ "] = " ++ hf (e_ident.getD EI_MAG0 0).val ++ "\n" ++
  "\tFile identification [" ++ dec EI_MAG1 ++ "] = " ++ "'" ++ put_char (e_ident.getD EI_MAG1 0)
    ++ "'" ++ "\n" ++
  "\tFile identification [" ++ dec EI_MAG2 ++ "] = " ++ "'" ++ put_char (e_ident.getD EI_MAG2 0)
    ++ "'" ++ "\n" ++
  "\tFile identification [" ++ dec EI_MAG3 ++ "] = " ++ "'" ++ put_char (e_ident.getD EI_MAG3 0)
    ++ "'" ++ "\n" ++
  "\tFile class [" ++ dec EI_CLASS ++ "] = " ++ hf (e_ident.getD EI_CLASS 0).val
    ++ " (" ++ to_str ei_class (e_ident.getD EI_CLASS 0).val "Unknown 'EI_CLASS' field" ++ ")"
    ++ "\n" ++
  "\tData encoding [" ++ dec EI_DATA ++ "] = " ++ hf (e_ident.getD EI_DATA 0).val
    ++ " ("
    ++ to_str data_encoding (e_ident.getD EI_DATA 0).val "Unknown 'EI_DATA' field"
    ++ ")"
    ++ "\n" ++
  "\tELF header version number [" ++ dec EI_VERSION ++ "] = "
    ++ hf (e_ident.getD EI_VERSION 0).val ++ " ("
    ++ to_str version (e_ident.getD EI_VERSION 0).val "Unknown 'EI_VERSION' field"
    ++ ")"
    ++ "\n" ++
  "\tPadding bytes: " ++
  print_padding e_ident ++
  "\n"

/-- Embedding of `MainHeader::print`. The machine description comes from
`e_machine.h`, which is not part of the sources at hand: it is the parameter
`get_machine_description`. -/
def print (get_machine_description : Nat → String) (header : Elf_Ehdr) : String :=
  let e_type := ["No file type", "Relocatable file", "Executable file", "Shared object file",
    "Core file", "Processor-specific", "Processor-specific"]
  let e_version := ["Invalid version", "Current version"]
  print_e_ident header.e_ident ++
  "e_type (object file type): " ++ hf header.e_type ++ " ("
    ++ to_str e_type header.e_type "Unknown 'e_type' field"
    ++ ")" ++ "\n" ++
  "e_machine (architecture): " ++ hf header.e_machine ++ " ("
    ++ get_machine_description header.e_machine ++ ")" ++ "\n" ++
  "e_version (object file version): " ++ hf header.e_version ++ " ("
    ++ to_str e_version header.e_version "Unknown 'e_version' field"
    ++ ")" ++ "\n" ++
  "e_entry (entry point): " ++ hf header.e_entry ++ "\n" ++
  "e_phoff (program header table): " ++ hf header.e_phoff ++ "\n" ++
  "e_shoff (section header table): " ++ hf header.e_shoff ++ "\n" ++
  "e_flags (processor specific flags): " ++ hf header.e_flags ++ "\n" ++
  "e_ehsize (ELF header size): " ++ dec header.e_ehsize ++ "\n" ++
  "e_phentsize (program header entry size): " ++ dec header.e_phentsize ++ "\n" ++
  "e_phnum (number of entries in program header): " ++ dec header.e_phnum ++ "\n" ++
  "e_shentsize (section header size): " ++ dec header.e_shentsize ++ "\n" ++
  "e_shnum (number of entries in section header): " ++ dec header.e_shnum ++ "\n" ++
  "e_shstrndx (index of section string table): " ++ dec header.e_shstrndx ++ "\n"

end MainHeader

/-! ## Section header table (elfview.cpp:216-296) -/

/-- Members of a `SectionHeader` object that `parse` fills. -/
structure SectionHeader where
  string_table_ : List Byte
  sections_header_ : List Elf_Shdr
deriving DecidableEq

/-- Value of `vector<char>::max_size()`. -/
def vector_max_size : Nat := 2 ^ 63 - 1

/-- Exceptions that leave the program. -/
inductive Exn where
  | length_error
  | bad_alloc
deriving DecidableEq

namespace SectionHeader

/-- The loop of `SectionHeader::parse` (elfview.cpp:235-240): `count` more
iterations starting with `i`. `storage i` is the prior content of the local
`section_header` in iteration `i`. Returns the records pushed, in order, and
the stream after the loop. -/
def read_section_headers (cls : ElfClass) (storage : Nat → List Byte) :
    Nat → Nat → IFStream → List Elf_Shdr × IFStream
  | 0, _, file_ => ([], file_)
  | count + 1, i, file_ =>
    let r := file_.read (sizeof_Shdr cls)
    let section_header := decode_Shdr cls (overwrite (sizeof_Shdr cls) (storage i) r.1)
    let rest := read_section_headers cls storage count (i + 1) r.2
    (section_header :: rest.1, rest.2)

/-- First half of `SectionHeader::parse` (elfview.cpp:232-240): the seek to
`e_shoff` and the loop. -/
def parse_sections (cls : ElfClass) (storage : Nat → List Byte) (main_header : Elf_Ehdr)
    (file_ : IFStream) : List Elf_Shdr × IFStream :=
  read_section_headers cls storage main_header.e_shnum 0
    (file_.seekg (to_streamoff main_header.e_shoff))

/-- Second half of `SectionHeader::parse` (elfview.cpp:242-250): loading the
string table. `resize` throws `length_error` beyond `max_size()`; below that
the allocator decides: `can_allocate n` tells whether it serves a request of
`n` bytes, a refused request throws `bad_alloc`, and a request no larger than
the file is taken to be served. A served `resize` zero-fills the buffer. -/
def parse_string_table (can_allocate : Nat → Bool) (main_header : Elf_Ehdr)
    (sections_header_ : List Elf_Shdr) (file_ : IFStream) :
    Except Exn (List Byte × IFStream) :=
  if h : SHN_UNDEF ≠ main_header.e_shstrndx ∧
      main_header.e_shstrndx < sections_header_.length then
    let string_section_header := sections_header_.get ⟨main_header.e_shstrndx, h.2⟩
    let sought := file_.seekg (to_streamoff string_section_header.sh_offset)
    if vector_max_size < string_section_header.sh_size then
      .error .length_error
    else if file_.content.length < string_section_header.sh_size ∧
        can_allocate string_section_header.sh_size = false then
      .error .bad_alloc
    else
      let r := sought.read string_section_header.sh_size
      .ok (overwrite string_section_header.sh_size
        (List.replicate string_section_header.sh_size 0) r.1, r.2)
  else
    .ok ([], file_)

/-- Embedding of `SectionHeader::parse`. -/
def parse (can_allocate : Nat → Bool) (cls : ElfClass) (storage : Nat → List Byte)
    (main_header : Elf_Ehdr) (file_ : IFStream) : Except Exn (SectionHeader × IFStream) :=
  let s := parse_sections cls storage main_header file_
  match parse_string_table can_allocate main_header s.1 s.2 with
  | .error e => .error e
  | .ok t => .ok ({ string_table_ := t.1, sections_header_ := s.1 }, t.2)

/-- The loop of `SectionHeader::print()` (elfview.cpp:256-261) from index `i`
over the remaining records. -/
def print_loop (string_table_ : List Byte) : Nat → List Elf_Shdr → String
  | _, [] => ""
  | i, header :: rest =>
    "Section " ++ dec i ++ "\n" ++ print_section string_table_ header.sh_name ++
      print_loop string_table_ (i + 1) rest

/-- Embedding of `SectionHeader::print()`. -/
def print (sh : SectionHeader) : String :=
  "[Sections (" ++ dec sh.sections_header_.length ++ ")]" ++ "\n" ++
    print_loop sh.string_table_ 0 sh.sections_header_

end SectionHeader

/-! ## Dispatcher (elfview.cpp:298-331) -/

/-- What a run wrote to `cout`, and whether it ended by an exception. -/
structure Outcome where
  out : String
  threw : Bool
deriving DecidableEq

/-- Embedding of `ELFView::view`. -/
def ELFView.view (can_allocate : Nat → Bool) (cls : ElfClass)
    (get_machine_description : Nat → String) (header_ : List Byte)
    (storage : Nat → List Byte) (file_ : IFStream) : Outcome :=
  let mh := MainHeader.parse cls header_ file_
  let out := MainHeader.print get_machine_description mh.1 ++ "\n"
  match SectionHeader.parse can_allocate cls storage mh.1 mh.2 with
  | .error _ => { out := out, threw := true }
  | .ok sh => { out := out ++ SectionHeader.print sh.1 ++ "\n", threw := false }

/-- The branch selection of `view` (elfview.cpp:321-330). -/
def dispatch (object_class : Int) : Option ElfClass :=
  if object_class = (ELFCLASS32 : Int) then some .elf32
  else if object_class = (ELFCLASS64 : Int) then some .elf64
  else none

/-- Embedding of `view`. -/
def view (can_allocate : Nat → Bool) (get_machine_description : Nat → String)
    (header_ : List Byte) (storage : Nat → List Byte) (file : IFStream) : Outcome :=
  let c := get_object_class file
  match dispatch c.1 with
  | some cls => ELFView.view can_allocate cls get_machine_description header_ storage c.2
  | none => { out := "", threw := false }

/-! ## Reference notions used in the statements -/

/-- The section header record stored in the file `content` at offset
`e_shoff + i * sizeof(Elf_Shdr)`. -/
def record_at (cls : ElfClass) (content : List Byte) (e_shoff i : Nat) : Elf_Shdr :=
  decode_Shdr cls ((content.drop (e_shoff + i * sizeof_Shdr cls)).take (sizeof_Shdr cls))

/-- The file header record after a read that stored only the bytes `content`
(fewer than the record's size) over the prior content `header_`. -/
def short_header (cls : ElfClass) (header_ content : List Byte) : Elf_Ehdr :=
  decode_Ehdr cls (overwrite (sizeof_Ehdr cls) header_ content)

/-- The stream after a read that ran into the end of the file `content`. -/
def stream_at_eof (content : List Byte) : IFStream :=
  ⟨content, content.length, true, true⟩

/-! ## A small 32-bit object used in the examples -/

/-- File header of the sample: class 32-bit, little-endian, `e_type = 2`,
`e_machine = 3`, `e_shoff = 65`, `e_ehsize = 52`, `e_shentsize = 40`,
`e_shnum = 3`, `e_shstrndx = 1`. -/
def sample_ehdr_bytes : List Byte :=
  [0x7f, 0x45, 0x4c, 0x46, 1, 1, 1, 0, 0, 0, 0, 0, 0, 0, 0, 0,
   2, 0, 3, 0, 1, 0, 0, 0, 0, 0, 0, 0, 0, 0, 0, 0, 65, 0, 0, 0, 0, 0, 0, 0,
   52, 0, 0, 0, 0, 0, 40, 0, 3, 0, 1, 0]

/-- Section header table of the sample: the null section, the string table
(`sh_name = 7`, `sh_offset = 52`, `sh_size = 13`) and a section named at
offset 1. -/
def sample_shdr_bytes : List Byte :=
  List.replicate 40 0 ++
  ([7, 0, 0, 0, 3, 0, 0, 0, 0, 0, 0, 0, 0, 0, 0, 0, 52, 0, 0, 0, 13, 0, 0, 0] ++
    List.replicate 16 0) ++
  ([1, 0, 0, 0, 1, 0, 0, 0] ++ List.replicate 32 0)

/-- The sample file: header, string table of scenario 3, section header table. -/
def sample_file : List Byte :=
  sample_ehdr_bytes ++ scenario3_table ++ sample_shdr_bytes

/-- The sample file opened as `main` opens it: positioned at its end. -/
def sample_stream : IFStream :=
  ⟨sample_file, sample_file.length, false, false⟩

/-- A file of three bytes, opened as `main` opens it: positioned at its end. -/
def three_byte_stream : IFStream :=
  ⟨[0x7f, 0x45, 0x4c], 3, false, false⟩

/-- A file of five bytes whose class byte is `ELFCLASS32`, opened as `main`
opens it: positioned at its end. -/
def five_byte_stream : IFStream :=
  ⟨[0x7f, 0x45, 0x4c, 0x46, 1], 5, false, false⟩

/-! ## Parts of `MainHeader::print` named for the statements -/

/-- The `e_type` table of `MainHeader::print` (elfview.cpp:127-135). -/
def e_type_table : List String :=
  ["No file type", "Relocatable file", "Executable file", "Shared object file",
    "Core file", "Processor-specific", "Processor-specific"]

/-- The label shown for an `e_type` code (elfview.cpp:143). -/
def e_type_label (e_type : Nat) : String :=
  to_str e_type_table e_type "Unknown 'e_type' field"

/-- Text of the statement at elfview.cpp:142-144: the `e_type` line. -/
def e_type_line (e_type : Nat) : String :=
  "e_type (object file type): " ++ hf e_type ++ " (" ++ e_type_label e_type ++ ")" ++ "\n"

/-- Text written by `MainHeader::print` after the `e_type` line
(elfview.cpp:145-160). -/
def lines_after_e_type (get_machine_description : Nat → String) (header : Elf_Ehdr) : String :=
  "e_machine (architecture): " ++ hf header.e_machine ++ " ("
    ++ get_machine_description header.e_machine ++ ")" ++ "\n" ++
  "e_version (object file version): " ++ hf header.e_version ++ " ("
    ++ to_str ["Invalid version", "Current version"] header.e_version
      "Unknown 'e_version' field"
    ++ ")" ++ "\n" ++
  "e_entry (entry point): " ++ hf header.e_entry ++ "\n" ++
  "e_phoff (program header table): " ++ hf header.e_phoff ++ "\n" ++
  "e_shoff (section header table): " ++ hf header.e_shoff ++ "\n" ++
  "e_flags (processor specific flags): " ++ hf header.e_flags ++ "\n" ++
  "e_ehsize (ELF header size): " ++ dec header.e_ehsize ++ "\n" ++
  "e_phentsize (program header entry size): " ++ dec header.e_phentsize ++ "\n" ++
  "e_phnum (number of entries in program header): " ++ dec header.e_phnum ++ "\n" ++
  "e_shentsize (section header size): " ++ dec header.e_shentsize ++ "\n" ++
  "e_shnum (number of entries in section header): " ++ dec header.e_shnum ++ "\n" ++
  "e_shstrndx (index of section string table): " ++ dec header.e_shstrndx ++ "\n"

/-- Value of `ET_LOPROC` in `<elf.h>`. -/
def ET_LOPROC : Nat := 0xff00

/-- Value of `ET_HIPROC` in `<elf.h>`. -/
def ET_HIPROC : Nat := 0xffff

/-! ## Reading a hexadecimal rendering back -/

/-- The lowercase hexadecimal digits, in order of value. -/
def hex_digits : List Char :=
  "0123456789abcdef".data

/-- Value of a hexadecimal digit: its position in `hex_digits`. -/
def hex_digit_value (c : Char) : Nat :=
  hex_digits.indexOf c

/-- The number written by a run of hexadecimal digits, most significant first. -/
def read_hex (digits : List Char) : Nat :=
  digits.foldl (fun acc c => 16 * acc + hex_digit_value c) 0

/-! ## Re-encoding a record with the same raw layout -/

/-- The `width` bytes that hold the unsigned value `v`, least significant first. -/
def le_bytes : Nat → Nat → List Byte
  | 0, _ => []
  | width + 1, v => ⟨v % 256, Nat.mod_lt _ (by decide)⟩ :: le_bytes width (v / 256)

/-- The bytes of an `Elf32_Ehdr` / `Elf64_Ehdr` object with the given fields. -/
def encode_Ehdr : ElfClass → Elf_Ehdr → List Byte
  | .elf32, h =>
    h.e_ident ++ le_bytes 2 h.e_type ++ le_bytes 2 h.e_machine ++ le_bytes 4 h.e_version ++
      le_bytes 4 h.e_entry ++ le_bytes 4 h.e_phoff ++ le_bytes 4 h.e_shoff ++
      le_bytes 4 h.e_flags ++ le_bytes 2 h.e_ehsize ++ le_bytes 2 h.e_phentsize ++
      le_bytes 2 h.e_phnum ++ le_bytes 2 h.e_shentsize ++ le_bytes 2 h.e_shnum ++
      le_bytes 2 h.e_shstrndx
  | .elf64, h =>
    h.e_ident ++ le_bytes 2 h.e_type ++ le_bytes 2 h.e_machine ++ le_bytes 4 h.e_version ++
      le_bytes 8 h.e_entry ++ le_bytes 8 h.e_phoff ++ le_bytes 8 h.e_shoff ++
      le_bytes 4 h.e_flags ++ le_bytes 2 h.e_ehsize ++ le_bytes 2 h.e_phentsize ++
      le_bytes 2 h.e_phnum ++ le_bytes 2 h.e_shentsize ++ le_bytes 2 h.e_shnum ++
      le_bytes 2 h.e_shstrndx

/-- The bytes of an `Elf32_Shdr` / `Elf64_Shdr` object with the given fields. -/
def encode_Shdr : ElfClass → Elf_Shdr → List Byte
  | .elf32, h =>
    le_bytes 4 h.sh_name ++ le_bytes 4 h.sh_type ++ le_bytes 4 h.sh_flags ++
      le_bytes 4 h.sh_addr ++ le_bytes 4 h.sh_offset ++ le_bytes 4 h.sh_size ++
      le_bytes 4 h.sh_link ++ le_bytes 4 h.sh_info ++ le_bytes 4 h.sh_addralign ++
      le_bytes 4 h.sh_entsize
  | .elf64, h =>
    le_bytes 4 h.sh_name ++ le_bytes 4 h.sh_type ++ le_bytes 8 h.sh_flags ++
      le_bytes 8 h.sh_addr ++ le_bytes 8 h.sh_offset ++ le_bytes 8 h.sh_size ++
      le_bytes 4 h.sh_link ++ le_bytes 4 h.sh_info ++ le_bytes 8 h.sh_addralign ++
      le_bytes 8 h.sh_entsize

/-! ## Parts of `MainHeader::print_e_ident` named for the statements -/

/-- The `ei_class` table of `print_e_ident` (elfview.cpp:166-170). -/
def ei_class_table : List String :=
  ["Invalid class", "32-bit objects", "64-bit objects"]

/-- Text written by `print_e_ident` before the "File class" line
(elfview.cpp:183-188). -/
def lines_before_file_class (e_ident : List Byte) : String :=
  "[ELF Header]" ++ "\n" ++
  "e_ident:" ++ "\n" ++
  "\tFile identification [" ++ dec EI_MAG0 ++ "] = " ++ hf (e_ident.getD EI_MAG0 0).val ++ "\n" ++
  "\tFile identification [" ++ dec EI_MAG1 ++ "] = " ++ "'" ++ put_char (e_ident.getD EI_MAG1 0)
    ++ "'" ++ "\n" ++
  "\tFile identification [" ++ dec EI_MAG2 ++ "] = " ++ "'" ++ put_char (e_ident.getD EI_MAG2 0)
    ++ "'" ++ "\n" ++
  "\tFile identification [" ++ dec EI_MAG3 ++ "] = " ++ "'" ++ put_char (e_ident.getD EI_MAG3 0)
    ++ "'" ++ "\n"

/-- Text of the statement at elfview.cpp:189-191: the "File class" line. -/
def file_class_line (e_ident : List Byte) : String :=
  "\tFile class [" ++ dec EI_CLASS ++ "] = " ++ hf (e_ident.getD EI_CLASS 0).val
    ++ " (" ++ to_str ei_class_table (e_ident.getD EI_CLASS 0).val "Unknown 'EI_CLASS' field"
    ++ ")" ++ "\n"

/-- Text of the statements at elfview.cpp:192-201: the "Data encoding" and
"ELF header version number" lines. -/
def encoding_and_version_lines (e_ident : List Byte) : String :=
  "\tData encoding [" ++ dec EI_DATA ++ "] = " ++ hf (e_ident.getD EI_DATA 0).val
    ++ " ("
    ++ to_str ["Invalid data encoding", "Little-endian", "Big-endian"]
      (e_ident.getD EI_DATA 0).val "Unknown 'EI_DATA' field"
    ++ ")"
    ++ "\n" ++
  "\tELF header version number [" ++ dec EI_VERSION ++ "] = "
    ++ hf (e_ident.getD EI_VERSION 0).val ++ " ("
    ++ to_str ["Invalid version", "Current version"] (e_ident.getD EI_VERSION 0).val
      "Unknown 'EI_VERSION' field"
    ++ ")"
    ++ "\n"

/-- Text of the statements at elfview.cpp:202-208: the "Padding bytes" line. -/
def padding_line (e_ident : List Byte) : String :=
  "\tPadding bytes: " ++ MainHeader.print_padding e_ident ++ "\n"

/-- The class label that matches a decoding path. -/
def class_label : ElfClass → String
  | .elf32 => "32-bit objects"
  | .elf64 => "64-bit objects"

/-- An identification block whose bytes at the indices 7 and 8 are `0xaa` and
`0xbb`, and whose bytes at the indices 9 to 15 are 9 to 15. -/
def osabi_e_ident : List Byte :=
  [0x7f, 0x45, 0x4c, 0x46, 1, 1, 1, 0xaa, 0xbb, 9, 10, 11, 12, 13, 14, 15]

/-- The block `osabi_e_ident` with the bytes at the indices 7 and 8 cleared. -/
def plain_e_ident : List Byte :=
  [0x7f, 0x45, 0x4c, 0x46, 1, 1, 1, 0, 0, 9, 10, 11, 12, 13, 14, 15]

/-! ## The rendering of the file header as a list of lines -/

/-- The fixed text that starts each of the 23 lines of `MainHeader::print`, in
the order of the statements at elfview.cpp:183-202 and 142-160. -/
def header_prefixes : List String :=
  ["[ELF Header]",
   "e_ident:",
   "\tFile identification [" ++ dec EI_MAG0 ++ "] = ",
   "\tFile identification [" ++ dec EI_MAG1 ++ "] = ",
   "\tFile identification [" ++ dec EI_MAG2 ++ "] = ",
   "\tFile identification [" ++ dec EI_MAG3 ++ "] = ",
   "\tFile class [" ++ dec EI_CLASS ++ "] = ",
   "\tData encoding [" ++ dec EI_DATA ++ "] = ",
   "\tELF header version number [" ++ dec EI_VERSION ++ "] = ",
   "\tPadding bytes: ",
   "e_type (object file type): ",
   "e_machine (architecture): ",
   "e_version (object file version): ",
   "e_entry (entry point): ",
   "e_phoff (program header table): ",
   "e_shoff (section header table): ",
   "e_flags (processor specific flags): ",
   "e_ehsize (ELF header size): ",
   "e_phentsize (program header entry size): ",
   "e_phnum (number of entries in program header): ",
   "e_shentsize (section header size): ",
   "e_shnum (number of entries in section header): ",
   "e_shstrndx (index of section string table): "]

/-- The text that `MainHeader::print` writes after each prefix, up to the end
of the line. -/
def header_values (get_machine_description : Nat → String) (header : Elf_Ehdr) : List String :=
  ["",
   "",
   hf (header.e_ident.getD EI_MAG0 0).val,
   "'" ++ put_char (header.e_ident.getD EI_MAG1 0) ++ "'",
   "'" ++ put_char (header.e_ident.getD EI_MAG2 0) ++ "'",
   "'" ++ put_char (header.e_ident.getD EI_MAG3 0) ++ "'",
   hf (header.e_ident.getD EI_CLASS 0).val ++ " (" ++
     to_str ["Invalid class", "32-bit objects", "64-bit objects"]
       (header.e_ident.getD EI_CLASS 0).val "Unknown 'EI_CLASS' field" ++ ")",
   hf (header.e_ident.getD EI_DATA 0).val ++ " (" ++
     to_str ["Invalid data encoding", "Little-endian", "Big-endian"]
       (header.e_ident.getD EI_DATA 0).val "Unknown 'EI_DATA' field" ++ ")",
   hf (header.e_ident.getD EI_VERSION 0).val ++ " (" ++
     to_str ["Invalid version", "Current version"]
       (header.e_ident.getD EI_VERSION 0).val "Unknown 'EI_VERSION' field" ++ ")",
   MainHeader.print_padding header.e_ident,
   hf header.e_type ++ " (" ++
     to_str ["No file type", "Relocatable file", "Executable file", "Shared object file",
       "Core file", "Processor-specific", "Processor-specific"]
       header.e_type "Unknown 'e_type' field" ++ ")",
   hf header.e_machine ++ " (" ++ get_machine_description header.e_machine ++ ")",
   hf header.e_version ++ " (" ++
     to_str ["Invalid version", "Current version"] header.e_version
       "Unknown 'e_version' field" ++ ")",
   hf header.e_entry,
   hf header.e_phoff,
   hf header.e_shoff,
   hf header.e_flags,
   dec header.e_ehsize,
   dec header.e_phentsize,
   dec header.e_phnum,
   dec header.e_shentsize,
   dec header.e_shnum,
   dec header.e_shstrndx]

/-- One line of output: a prefix, a value and the line break of `endl`. -/
def header_line (line_start value : String) : String :=
  line_start ++ value ++ "\n"

/-- Number of line breaks in a text. -/
def line_count (text : String) : Nat :=
  text.data.count '\n'

/-- A 32-bit file header whose byte `e_ident[EI_MAG1]` is the line feed. -/
def newline_ehdr_bytes : List Byte :=
  [0x7f, 0x0a, 0x4c, 0x46, 1, 1, 1] ++ List.replicate 45 0

/-! ## Truncated files used in the examples -/

/-- Prior content of the file header's storage that holds `e_type = 2` and
zeros elsewhere. -/
def stale_header_storage : List Byte :=
  (List.replicate 52 0).set 16 2

/-- A 32-bit file of 50 bytes, two short of a file header: `e_shoff = 0` and
`e_shnum = 1` are in the file, `e_shstrndx` is not. -/
def fifty_byte_file : List Byte :=
  [0x7f, 0x45, 0x4c, 0x46, 1, 1, 1] ++ List.replicate 41 0 ++ [1, 0]

/-- The file `fifty_byte_file` positioned at its end. -/
def fifty_byte_stream : IFStream :=
  ⟨fifty_byte_file, 50, false, false⟩

theorem indexOf_zero_lt_of_getElem? (l : List Byte) (k : Nat) (h : l[k]? = some 0) :
    l.indexOf (0 : Byte) < l.length := by
  rw [List.indexOf_lt_length]
  exact List.getElem?_mem h

theorem getElem?_indexOf_zero (l : List Byte) (h : l.indexOf (0 : Byte) < l.length) :
    l[l.indexOf (0 : Byte)]? = some 0 := by
  rw [List.getElem?_eq_getElem h]
  simp

theorem getElem?_ne_of_lt_indexOf (l : List Byte) (j : Nat)
    (h : j < l.indexOf (0 : Byte)) : l[j]? ≠ some 0 := by
  induction l generalizing j with
  | nil => simp
  | cons a t ih =>
    by_cases ha : a = 0
    · subst ha
      simp at h
    · rw [List.indexOf_cons_ne _ ha] at h
      cases j with
      | zero => simpa using ha
      | succ j =>
        simp only [List.getElem?_cons_succ]
        exact ih j (by omega)

theorem zero_not_mem_take_indexOf (l : List Byte) :
    (0 : Byte) ∉ l.take (l.indexOf (0 : Byte)) := by
  induction l with
  | nil => simp
  | cons a t ih =>
    by_cases ha : a = 0
    · subst ha
      simp
    · rw [List.indexOf_cons_ne _ ha]
      simp only [List.take_succ_cons, List.mem_cons, not_or]
      exact ⟨fun e => ha e.symm, ih⟩

theorem indexOf_zero_eq_length_of_forall (l : List Byte)
    (h : ∀ k : Nat, l[k]? ≠ some 0) : l.indexOf (0 : Byte) = l.length := by
  rw [List.indexOf_eq_length]
  intro hmem
  obtain ⟨n, hn⟩ := (List.mem_iff_getElem? (l := l)).mp hmem
  exact h n hn

/-! ## Helper lemmas on strings and on the printing loop -/

theorem join_cons (a : String) (l : List String) :
    String.join (a :: l) = a ++ String.join l := by
  rw [String.join_eq, String.join_eq]
  apply String.ext
  simp [String.data_append]

theorem get_section_name_nil (index : Nat) : get_section_name [] index = [] := by
  simp [get_section_name]

theorem print_section_nil (sh_name : Nat) :
    print_section [] sh_name = "sh_name (section name): No Name\n" := by
  simp only [print_section, shown_section_name, get_section_name_nil]
  rfl

theorem print_loop_eq_join (string_table_ : List Byte) (l : List Elf_Shdr) (i : Nat) :
    SectionHeader.print_loop string_table_ i l =
      String.join ((List.range l.length).map fun j =>
        "Section " ++ dec (i + j) ++ "\n" ++
          print_section string_table_ ((l[j]?.map fun h => h.sh_name).getD 0)) := by
  induction l generalizing i with
  | nil => rfl
  | cons h t ih =>
    rw [SectionHeader.print_loop, List.length_cons, List.range_succ_eq_map, List.map_cons,
      join_cons, List.map_map, ih (i + 1)]
    have hmap : (List.map ((fun j => "Section " ++ dec (i + j) ++ "\n" ++
          print_section string_table_
            ((((h :: t)[j]?).map fun h => h.sh_name).getD 0)) ∘ Nat.succ)
        (List.range t.length)) =
        List.map (fun j => "Section " ++ dec (i + 1 + j) ++ "\n" ++
          print_section string_table_ (((t[j]?).map fun h => h.sh_name).getD 0))
        (List.range t.length) := by
      apply List.map_congr_left
      intro j _
      simp only [Function.comp, Nat.succ_eq_add_one, List.getElem?_cons_succ]
      rw [show i + 1 + j = i + (j + 1) by omega]
    rw [hmap]
    simp [String.append_assoc]

theorem length_read_section_headers (cls : ElfClass) (storage : Nat → List Byte)
    (count i : Nat) (file_ : IFStream) :
    (SectionHeader.read_section_headers cls storage count i file_).1.length = count := by
  induction count generalizing i file_ with
  | zero => rfl
  | succ n ih => simp [SectionHeader.read_section_headers, ih]

theorem length_parse_sections (cls : ElfClass) (storage : Nat → List Byte)
    (main_header : Elf_Ehdr) (file_ : IFStream) :
    (SectionHeader.parse_sections cls storage main_header file_).1.length =
      main_header.e_shnum :=
  length_read_section_headers cls storage _ _ _

/-! ## Helper lemmas on the stream -/

theorem seekg_of_not_fail (f : IFStream) (n : Nat) (h : f.failbit = false) :
    f.seekg (n : Int) = ⟨f.content, n, false, false⟩ := by
  simp [IFStream.seekg, IFStream.sentry, IFStream.good, h]

theorem seekg_of_fail (f : IFStream) (off : Int) (h : f.failbit = true) :
    f.seekg off = ⟨f.content, f.pos, false, true⟩ := by
  simp [IFStream.seekg, IFStream.sentry, IFStream.good, h]

theorem read_of_fail (f : IFStream) (n : Nat) (h : f.failbit = true) :
    f.read n = ([], f) := by
  cases f
  simp_all [IFStream.read, IFStream.sentry, IFStream.good]

theorem read_within (content : List Byte) (pos n : Nat) (h : pos + n ≤ content.length) :
    (⟨content, pos, false, false⟩ : IFStream).read n =
      ((content.drop pos).take n, ⟨content, pos + n, false, false⟩) := by
  have hl : ((content.drop pos).take n).length = n := by
    rw [List.length_take, List.length_drop]
    omega
  unfold IFStream.read
  simp only [IFStream.sentry, IFStream.good, Bool.not_false, Bool.and_self, if_true]
  rw [if_neg (by rw [hl]; simp), hl]

theorem read_short (content : List Byte) (pos n : Nat) (h : content.length - pos < n) :
    (⟨content, pos, false, false⟩ : IFStream).read n =
      (content.drop pos, ⟨content, pos + (content.length - pos), true, true⟩) := by
  have ht : (content.drop pos).take n = content.drop pos := by
    apply List.take_of_length_le
    rw [List.length_drop]
    omega
  have hl : (content.drop pos).length ≠ n := by
    rw [List.length_drop]
    omega
  unfold IFStream.read
  simp only [IFStream.sentry, IFStream.good, Bool.not_false, Bool.and_self, if_true]
  rw [ht, if_pos hl, List.length_drop]

theorem overwrite_full (n : Nat) (storage data : List Byte) (h : data.length = n) :
    overwrite n storage data = data := by
  unfold overwrite
  rw [List.take_append_of_le_length (by omega), List.take_of_length_le (by omega)]

theorem to_streamoff_of_lt (v : Nat) (h : v < 2 ^ 63) : to_streamoff v = (v : Int) := by
  have h1 : v % 2 ^ 64 = v := Nat.mod_eq_of_lt (by omega)
  unfold to_streamoff
  rw [h1, if_pos h]

theorem read_section_headers_within (cls : ElfClass) (storage : Nat → List Byte)
    (content : List Byte) (count i pos : Nat)
    (h : pos + count * sizeof_Shdr cls ≤ content.length) :
    SectionHeader.read_section_headers cls storage count i ⟨content, pos, false, false⟩ =
      ((List.range count).map fun j =>
          decode_Shdr cls ((content.drop (pos + j * sizeof_Shdr cls)).take (sizeof_Shdr cls)),
        ⟨content, pos + count * sizeof_Shdr cls, false, false⟩) := by
  induction count generalizing i pos with
  | zero => simp [SectionHeader.read_section_headers]
  | succ n ih =>
    have hle : pos + sizeof_Shdr cls ≤ content.length := by
      rw [Nat.succ_mul] at h
      omega
    have hrest : pos + sizeof_Shdr cls + n * sizeof_Shdr cls ≤ content.length := by
      rw [Nat.succ_mul] at h
      omega
    have hl : ((content.drop pos).take (sizeof_Shdr cls)).length = sizeof_Shdr cls := by
      rw [List.length_take, List.length_drop]
      omega
    rw [SectionHeader.read_section_headers, read_within content pos _ hle]
    simp only [ih (i + 1) (pos + sizeof_Shdr cls) hrest, overwrite_full _ _ _ hl]
    rw [List.range_succ_eq_map, List.map_cons, List.map_map]
    refine Prod.ext ?_ ?_
    · simp only [Nat.zero_mul, Nat.add_zero, List.cons.injEq, true_and]
      apply List.map_congr_left
      intro j _
      simp only [Function.comp, Nat.succ_eq_add_one]
      rw [show pos + sizeof_Shdr cls + j * sizeof_Shdr cls = pos + (j + 1) * sizeof_Shdr cls by
        rw [Nat.succ_mul]; omega]
    · simp only
      rw [show pos + sizeof_Shdr cls + n * sizeof_Shdr cls = pos + (n + 1) * sizeof_Shdr cls by
        rw [Nat.succ_mul]; omega]

theorem parse_sections_within (cls : ElfClass) (storage : Nat → List Byte)
    (main_header : Elf_Ehdr) (file_ : IFStream)
    (hfail : file_.failbit = false) (hlen : file_.content.length < 2 ^ 63)
    (htable : main_header.e_shoff + main_header.e_shnum * sizeof_Shdr cls ≤
      file_.content.length) :
    SectionHeader.parse_sections cls storage main_header file_ =
      ((List.range main_header.e_shnum).map fun j =>
          decode_Shdr cls ((file_.content.drop
            (main_header.e_shoff + j * sizeof_Shdr cls)).take (sizeof_Shdr cls)),
        ⟨file_.content, main_header.e_shoff + main_header.e_shnum * sizeof_Shdr cls,
          false, false⟩) := by
  unfold SectionHeader.parse_sections
  rw [to_streamoff_of_lt _ (by omega), seekg_of_not_fail _ _ hfail]
  exact read_section_headers_within cls storage _ _ _ _ htable

theorem parse_sections_getElem? (cls : ElfClass) (storage : Nat → List Byte)
    (main_header : Elf_Ehdr) (file_ : IFStream)
    (hfail : file_.failbit = false) (hlen : file_.content.length < 2 ^ 63)
    (htable : main_header.e_shoff + main_header.e_shnum * sizeof_Shdr cls ≤
      file_.content.length) (i : Nat) (hi : i < main_header.e_shnum) :
    (SectionHeader.parse_sections cls storage main_header file_).1[i]? =
      some (record_at cls file_.content main_header.e_shoff i) := by
  rw [parse_sections_within cls storage main_header file_ hfail hlen htable]
  simp [record_at, hi]

theorem parse_string_table_of_some {can_allocate : Nat → Bool} (main_header : Elf_Ehdr)
    (sections_header_ : List Elf_Shdr)
    (file_ : IFStream) (hdr : Elf_Shdr) (h0 : SHN_UNDEF ≠ main_header.e_shstrndx)
    (hget : sections_header_[main_header.e_shstrndx]? = some hdr) :
    SectionHeader.parse_string_table can_allocate main_header sections_header_ file_ =
      if vector_max_size < hdr.sh_size then .error .length_error
      else if file_.content.length < hdr.sh_size ∧ can_allocate hdr.sh_size = false then
        .error .bad_alloc
      else .ok (overwrite hdr.sh_size (List.replicate hdr.sh_size 0)
          ((file_.seekg (to_streamoff hdr.sh_offset)).read hdr.sh_size).1,
        ((file_.seekg (to_streamoff hdr.sh_offset)).read hdr.sh_size).2) := by
  obtain ⟨hlt, heq⟩ := List.getElem?_eq_some.mp hget
  unfold SectionHeader.parse_string_table
  rw [dif_pos ⟨h0, hlt⟩]
  have hg : sections_header_.get ⟨main_header.e_shstrndx, hlt⟩ = hdr := by
    rw [List.get_eq_getElem]
    exact heq
  simp only [hg]

theorem tellg_of_good (content : List Byte) (pos : Nat) :
    (⟨content, pos, false, false⟩ : IFStream).tellg = ((pos : Int), ⟨content, pos, false, false⟩) := by
  simp [IFStream.tellg, IFStream.sentry, IFStream.good]

theorem get_of_some (content : List Byte) (pos : Nat) (b : Byte) (h : content[pos]? = some b) :
    (⟨content, pos, false, false⟩ : IFStream).get =
      ((b.val : Int), ⟨content, pos + 1, false, false⟩) := by
  simp [IFStream.get, IFStream.sentry, IFStream.good, h]

theorem get_of_none (content : List Byte) (pos : Nat) (h : content[pos]? = none) :
    (⟨content, pos, false, false⟩ : IFStream).get = (-1, ⟨content, pos, true, true⟩) := by
  simp [IFStream.get, IFStream.sentry, IFStream.good, h]

theorem get_object_class_of_some (content : List Byte) (pos : Nat) (b : Byte)
    (h : content[4]? = some b) :
    get_object_class ⟨content, pos, false, false⟩ =
      ((b.val : Int), ⟨content, pos, false, false⟩) := by
  have h4 : content[EI_CLASS]? = some b := h
  unfold get_object_class
  simp only [tellg_of_good]
  rw [seekg_of_not_fail _ _ rfl]
  simp only [get_of_some _ _ _ h4, tellg_of_good]
  by_cases hp : ((EI_CLASS + 1 : Nat) : Int) = (pos : Int)
  · rw [if_neg (by simpa using hp)]
    have : EI_CLASS + 1 = pos := by exact_mod_cast hp
    rw [this]
  · rw [if_pos hp, seekg_of_not_fail _ _ rfl]

theorem get_object_class_of_none (content : List Byte) (pos : Nat)
    (h : content[4]? = none) :
    get_object_class ⟨content, pos, false, false⟩ = (-1, ⟨content, 4, false, true⟩) := by
  have h4 : content[EI_CLASS]? = none := h
  unfold get_object_class
  simp only [tellg_of_good]
  rw [seekg_of_not_fail _ _ rfl]
  simp only [get_of_none _ _ h4]
  have ht : (⟨content, EI_CLASS, true, true⟩ : IFStream).tellg =
      (-1, ⟨content, EI_CLASS, true, true⟩) := by
    simp [IFStream.tellg, IFStream.sentry, IFStream.good]
  simp only [ht]
  rw [if_pos (by omega), seekg_of_fail _ _ rfl]
  rfl

theorem good_iff (f : IFStream) :
    f.good = true ↔ f = ⟨f.content, f.pos, false, false⟩ := by
  cases f
  simp [IFStream.good]

theorem dispatch_byte (b : Byte) :
    (dispatch (b.val : Int) = some .elf32 ↔ b = 1) ∧
    (dispatch (b.val : Int) = some .elf64 ↔ b = 2) ∧
    (b ≠ 1 → b ≠ 2 → dispatch (b.val : Int) = none) := by
  have h1 : ((b.val : Int) = (ELFCLASS32 : Int)) ↔ b = 1 := by
    rw [Fin.ext_iff]
    show ((b.val : Int) = ((1 : Nat) : Int)) ↔ b.val = 1
    exact Nat.cast_inj
  have h2 : ((b.val : Int) = (ELFCLASS64 : Int)) ↔ b = 2 := by
    rw [Fin.ext_iff]
    show ((b.val : Int) = ((2 : Nat) : Int)) ↔ b.val = 2
    exact Nat.cast_inj
  unfold dispatch
  by_cases e1 : b = 1
  · subst e1
    simp [ELFCLASS32, ELFCLASS64]
  · by_cases e2 : b = 2
    · subst e2
      simp [ELFCLASS32, ELFCLASS64]
    · rw [if_neg (fun h => e1 (h1.mp h)), if_neg (fun h => e2 (h2.mp h))]
      simp [e1, e2]

theorem read_section_headers_of_fail (cls : ElfClass) (storage : Nat → List Byte)
    (count i : Nat) (f : IFStream) (h : f.failbit = true) :
    SectionHeader.read_section_headers cls storage count i f =
      ((List.range count).map fun j =>
          decode_Shdr cls (overwrite (sizeof_Shdr cls) (storage (i + j)) []), f) := by
  induction count generalizing i with
  | zero => simp [SectionHeader.read_section_headers]
  | succ n ih =>
    rw [SectionHeader.read_section_headers, read_of_fail f _ h]
    simp only [ih (i + 1)]
    rw [List.range_succ_eq_map, List.map_cons, List.map_map]
    refine Prod.ext ?_ rfl
    simp only [Nat.add_zero, List.cons.injEq, true_and]
    apply List.map_congr_left
    intro j _
    simp only [Function.comp, Nat.succ_eq_add_one]
    rw [show i + 1 + j = i + (j + 1) by omega]

theorem main_header_parse_short (cls : ElfClass) (header_ : List Byte) (content : List Byte)
    (pos : Nat) (hlen : content.length < sizeof_Ehdr cls) :
    MainHeader.parse cls header_ ⟨content, pos, false, false⟩ =
      (decode_Ehdr cls (overwrite (sizeof_Ehdr cls) header_ content),
        ⟨content, content.length, true, true⟩) := by
  have hs := seekg_of_not_fail ⟨content, pos, false, false⟩ 0 rfl
  have hr := read_short content 0 (sizeof_Ehdr cls) (by omega)
  unfold MainHeader.parse
  simp only [Nat.cast_zero] at hs
  rw [hs]
  simp only [hr, List.drop_zero, Nat.zero_add, Nat.sub_zero]

theorem view_eq_of_dispatch {can_allocate : Nat → Bool}
    (get_machine_description : Nat → String) (header_ : List Byte)
    (storage : Nat → List Byte) (content : List Byte) (pos : Nat) (cls : ElfClass)
    (h : dispatch (get_object_class ⟨content, pos, false, false⟩).1 = some cls) :
    view can_allocate get_machine_description header_ storage ⟨content, pos, false, false⟩ =
      ELFView.view can_allocate cls get_machine_description header_ storage ⟨content, pos, false, false⟩ := by
  cases hb : content[4]? with
  | none =>
    rw [get_object_class_of_none content pos hb] at h
    have hd : dispatch (-1) = none := by decide
    simp [hd] at h
  | some b =>
    have hc := get_object_class_of_some content pos b hb
    rw [hc] at h
    simp only [view, hc, h]

theorem parse_sections_of_eof (cls : ElfClass) (storage : Nat → List Byte)
    (main_header : Elf_Ehdr) (content : List Byte) :
    SectionHeader.parse_sections cls storage main_header (stream_at_eof content) =
      ((List.range main_header.e_shnum).map fun i =>
          decode_Shdr cls (overwrite (sizeof_Shdr cls) (storage i) []),
        ⟨content, content.length, false, true⟩) := by
  unfold SectionHeader.parse_sections
  rw [seekg_of_fail (stream_at_eof content) _ rfl]
  simp only [stream_at_eof]
  rw [read_section_headers_of_fail cls storage _ 0 _ rfl]
  simp only [Nat.zero_add]

/-! ## Helper lemmas on the rendering of the file header -/

theorem print_eq_e_type_line (get_machine_description : Nat → String) (header : Elf_Ehdr) :
    MainHeader.print get_machine_description header =
      MainHeader.print_e_ident header.e_ident ++ e_type_line header.e_type ++
        lines_after_e_type get_machine_description header := by
  simp only [MainHeader.print, e_type_line, e_type_label, e_type_table, lines_after_e_type,
    String.append_assoc]

theorem to_str_of_le (table : List String) (index : Nat) (default_value : String)
    (h : table.length ≤ index) : to_str table index default_value = default_value := by
  simp [to_str, Nat.not_lt.mpr h]

/-! ## Helper lemmas on `Nat.toDigits` -/

theorem digitChar_hex (k : Nat) (h : k < 16) :
    Nat.digitChar k ∈ hex_digits ∧ hex_digit_value (Nat.digitChar k) = k ∧
      (k ≠ 0 → Nat.digitChar k ≠ '0') := by
  interval_cases k <;> decide

theorem toDigitsCore_append (b f n : Nat) (ds : List Char) :
    Nat.toDigitsCore b f n ds = Nat.toDigitsCore b f n [] ++ ds := by
  induction f generalizing n ds with
  | zero => simp [Nat.toDigitsCore]
  | succ f ih =>
    simp only [Nat.toDigitsCore]
    split
    · simp
    · rw [ih (n / b) (Nat.digitChar (n % b) :: ds), ih (n / b) [Nat.digitChar (n % b)]]
      simp

theorem read_hex_append_singleton (xs : List Char) (c : Char) :
    read_hex (xs ++ [c]) = 16 * read_hex xs + hex_digit_value c := by
  simp [read_hex, List.foldl_append]

theorem toDigitsCore_hex (f n : Nat) (h : n < f) :
    Nat.toDigitsCore 16 f n [] ≠ [] ∧
    (∀ c ∈ Nat.toDigitsCore 16 f n [], c ∈ hex_digits) ∧
    (n ≠ 0 → (Nat.toDigitsCore 16 f n []).head? ≠ some '0') ∧
    (n = 0 → Nat.toDigitsCore 16 f n [] = ['0']) ∧
    read_hex (Nat.toDigitsCore 16 f n []) = n := by
  induction f generalizing n with
  | zero => omega
  | succ f ih =>
    have hd := digitChar_hex (n % 16) (Nat.mod_lt _ (by omega))
    simp only [Nat.toDigitsCore]
    by_cases h0 : n / 16 = 0
    · rw [if_pos h0]
      have hn : n < 16 := by omega
      have hm : n % 16 = n := Nat.mod_eq_of_lt hn
      rw [hm] at hd ⊢
      refine ⟨by simp, ?_, ?_, ?_, ?_⟩
      · intro c hc
        rw [List.mem_singleton] at hc
        rw [hc]
        exact hd.1
      · intro hne
        simpa using hd.2.2 hne
      · intro hz
        rw [hz]
        rfl
      · simp [read_hex, hd.2.1]
    · rw [if_neg h0, toDigitsCore_append]
      have hlt : n / 16 < f := by omega
      obtain ⟨i1, i2, i3, _, i5⟩ := ih (n / 16) hlt
      refine ⟨by simp, ?_, ?_, ?_, ?_⟩
      · intro c hc
        rw [List.mem_append, List.mem_singleton] at hc
        rcases hc with hc | hc
        · exact i2 c hc
        · rw [hc]
          exact hd.1
      · intro _
        rw [List.head?_append_of_ne_nil _ i1]
        exact i3 h0
      · intro hz
        omega
      · rw [read_hex_append_singleton, i5, hd.2.1]
        omega

/-! ## Helper lemmas on the record layouts -/

theorem le_bytes_le_value (l : List Byte) : le_bytes l.length (le_value l) = l := by
  induction l with
  | nil => rfl
  | cons b bs ih =>
    have hb := b.isLt
    have h1 : (b.val + 256 * le_value bs) % 256 = b.val := by omega
    have h2 : (b.val + 256 * le_value bs) / 256 = le_value bs := by omega
    simp only [List.length_cons, le_value, le_bytes, h1, h2, ih]

theorem le_bytes_field (mem : List Byte) (offset width : Nat)
    (h : offset + width ≤ mem.length) :
    le_bytes width (field mem offset width) = (mem.drop offset).take width := by
  have hl : ((mem.drop offset).take width).length = width := by
    rw [List.length_take, List.length_drop]
    omega
  unfold field
  have key := le_bytes_le_value ((mem.drop offset).take width)
  rw [hl] at key
  exact key

theorem map_getD_range (mem : List Byte) (n : Nat) (h : n ≤ mem.length) :
    ((List.range n).map fun i => mem.getD i 0) = mem.take n := by
  apply List.ext_getElem
  · simp [h]
  · intro i h1 h2
    simp only [List.length_map, List.length_range] at h1
    simp [List.getD_eq_getElem?_getD, List.getElem?_eq_getElem (show i < mem.length by omega)]

theorem take_append_slice (mem : List Byte) (a w b : Nat) (h : a + w = b) :
    mem.take a ++ (mem.drop a).take w = mem.take b := by
  rw [← h, List.take_add]

theorem encode_decode_Ehdr (cls : ElfClass) (mem : List Byte)
    (h : mem.length = sizeof_Ehdr cls) : encode_Ehdr cls (decode_Ehdr cls mem) = mem := by
  cases cls with
  | elf32 =>
    have h52 : mem.length = 52 := h
    simp only [decode_Ehdr, encode_Ehdr]
    rw [map_getD_range mem EI_NIDENT (by simp only [EI_NIDENT]; omega)]
    simp (disch := omega) only [le_bytes_field]
    simp only [EI_NIDENT]
    rw [
    take_append_slice mem 16 2 18 rfl, take_append_slice mem 18 2 20 rfl,
    take_append_slice mem 20 4 24 rfl, take_append_slice mem 24 4 28 rfl,
    take_append_slice mem 28 4 32 rfl, take_append_slice mem 32 4 36 rfl,
    take_append_slice mem 36 4 40 rfl, take_append_slice mem 40 2 42 rfl,
    take_append_slice mem 42 2 44 rfl, take_append_slice mem 44 2 46 rfl,
    take_append_slice mem 46 2 48 rfl, take_append_slice mem 48 2 50 rfl,
    take_append_slice mem 50 2 52 rfl]
    exact List.take_of_length_le (by omega)
  | elf64 =>
    have h64 : mem.length = 64 := h
    simp only [decode_Ehdr, encode_Ehdr]
    rw [map_getD_range mem EI_NIDENT (by simp only [EI_NIDENT]; omega)]
    simp (disch := omega) only [le_bytes_field]
    simp only [EI_NIDENT]
    rw [
    take_append_slice mem 16 2 18 rfl, take_append_slice mem 18 2 20 rfl,
    take_append_slice mem 20 4 24 rfl, take_append_slice mem 24 8 32 rfl,
    take_append_slice mem 32 8 40 rfl, take_append_slice mem 40 8 48 rfl,
    take_append_slice mem 48 4 52 rfl, take_append_slice mem 52 2 54 rfl,
    take_append_slice mem 54 2 56 rfl, take_append_slice mem 56 2 58 rfl,
    take_append_slice mem 58 2 60 rfl, take_append_slice mem 60 2 62 rfl,
    take_append_slice mem 62 2 64 rfl]
    exact List.take_of_length_le (by omega)

theorem encode_decode_Shdr (cls : ElfClass) (mem : List Byte)
    (h : mem.length = sizeof_Shdr cls) : encode_Shdr cls (decode_Shdr cls mem) = mem := by
  cases cls with
  | elf32 =>
    have h40 : mem.length = 40 := h
    simp only [decode_Shdr, encode_Shdr]
    simp (disch := omega) only [le_bytes_field]
    rw [List.drop_zero,
    take_append_slice mem 4 4 8 rfl, take_append_slice mem 8 4 12 rfl,
    take_append_slice mem 12 4 16 rfl, take_append_slice mem 16 4 20 rfl,
    take_append_slice mem 20 4 24 rfl, take_append_slice mem 24 4 28 rfl,
    take_append_slice mem 28 4 32 rfl, take_append_slice mem 32 4 36 rfl,
    take_append_slice mem 36 4 40 rfl]
    exact List.take_of_length_le (by omega)
  | elf64 =>
    have h64 : mem.length = 64 := h
    simp only [decode_Shdr, encode_Shdr]
    simp (disch := omega) only [le_bytes_field]
    rw [List.drop_zero,
    take_append_slice mem 4 4 8 rfl, take_append_slice mem 8 8 16 rfl,
    take_append_slice mem 16 8 24 rfl, take_append_slice mem 24 8 32 rfl,
    take_append_slice mem 32 8 40 rfl, take_append_slice mem 40 4 44 rfl,
    take_append_slice mem 44 4 48 rfl, take_append_slice mem 48 8 56 rfl,
    take_append_slice mem 56 8 64 rfl]
    exact List.take_of_length_le (by omega)

theorem main_header_parse_full (cls : ElfClass) (header_ : List Byte) (f : IFStream)
    (hf : f.failbit = false) (hl : sizeof_Ehdr cls ≤ f.content.length) :
    MainHeader.parse cls header_ f =
      (decode_Ehdr cls (f.content.take (sizeof_Ehdr cls)),
        ⟨f.content, sizeof_Ehdr cls, false, false⟩) := by
  have hs := seekg_of_not_fail f 0 hf
  have hr := read_within f.content 0 (sizeof_Ehdr cls) (by omega)
  have hlt : (f.content.take (sizeof_Ehdr cls)).length = sizeof_Ehdr cls := by
    rw [List.length_take]
    omega
  unfold MainHeader.parse
  simp only [Nat.cast_zero] at hs
  rw [hs]
  simp only [hr, List.drop_zero, Nat.zero_add]
  rw [overwrite_full _ _ _ hlt]

theorem print_e_ident_eq_lines (e_ident : List Byte) :
    MainHeader.print_e_ident e_ident =
      lines_before_file_class e_ident ++ file_class_line e_ident ++
        encoding_and_version_lines e_ident ++ padding_line e_ident := by
  simp only [MainHeader.print_e_ident, lines_before_file_class, file_class_line,
    encoding_and_version_lines, padding_line, ei_class_table, String.append_assoc]

theorem read_fst_of_good (content : List Byte) (pos n : Nat) :
    ((⟨content, pos, false, false⟩ : IFStream).read n).1 = (content.drop pos).take n := by
  unfold IFStream.read
  simp only [IFStream.sentry, IFStream.good, Bool.not_false, Bool.and_self, if_true]
  split <;> rfl

theorem main_header_parse_fst (cls : ElfClass) (header_ content : List Byte) (pos : Nat)
    (eofbit : Bool) :
    (MainHeader.parse cls header_ ⟨content, pos, eofbit, false⟩).1 =
      decode_Ehdr cls (overwrite (sizeof_Ehdr cls) header_
        (content.take (sizeof_Ehdr cls))) := by
  have hs := seekg_of_not_fail ⟨content, pos, eofbit, false⟩ 0 rfl
  unfold MainHeader.parse
  simp only [Nat.cast_zero] at hs
  rw [hs]
  simp only [read_fst_of_good, List.drop_zero]

theorem sizeof_Ehdr_gt (cls : ElfClass) : 16 ≤ sizeof_Ehdr cls := by
  cases cls <;> decide

theorem e_ident_getD (cls : ElfClass) (mem : List Byte) (i : Nat) (h : i < 16) :
    (decode_Ehdr cls mem).e_ident.getD i 0 = mem.getD i 0 := by
  cases cls <;>
    simp [decode_Ehdr, EI_NIDENT, List.getD_eq_getElem?_getD, List.getElem?_map,
      List.getElem?_range h]

theorem overwrite_getD_of_lt (n : Nat) (storage data : List Byte) (i : Nat)
    (hi : i < n) (hd : i < data.length) :
    (overwrite n storage data).getD i 0 = data.getD i 0 := by
  unfold overwrite
  simp only [List.getD_eq_getElem?_getD]
  rw [List.getElem?_take_of_lt hi, List.getElem?_append_left hd]

theorem parsed_e_ident_of_lt (cls : ElfClass) (header_ content : List Byte) (pos : Nat)
    (eofbit : Bool) (i : Nat) (h16 : i < 16) (hi : i < content.length) :
    (MainHeader.parse cls header_ ⟨content, pos, eofbit, false⟩).1.e_ident.getD i 0 =
      content.getD i 0 := by
  have hs := sizeof_Ehdr_gt cls
  rw [main_header_parse_fst, e_ident_getD cls _ i h16,
    overwrite_getD_of_lt _ _ _ _ (by omega) (by rw [List.length_take]; omega)]
  simp only [List.getD_eq_getElem?_getD]
  rw [List.getElem?_take_of_lt (by omega)]

theorem elfview_out_prefix {can_allocate : Nat → Bool}
    (cls : ElfClass) (get_machine_description : Nat → String)
    (header_ : List Byte) (storage : Nat → List Byte) (file_ : IFStream) :
    ∃ rest, (ELFView.view can_allocate cls get_machine_description header_ storage file_).out =
      MainHeader.print get_machine_description (MainHeader.parse cls header_ file_).1 ++
        rest := by
  simp only [ELFView.view]
  split
  · exact ⟨"\n", rfl⟩
  · rename_i sh _
    exact ⟨"\n" ++ (SectionHeader.print sh.1 ++ "\n"), by simp only [String.append_assoc]⟩

theorem file_class_line_of_code (cls : ElfClass) (e_ident : List Byte)
    (h : (e_ident.getD EI_CLASS 0).val = cls.code) :
    file_class_line e_ident =
      "\tFile class [4] = " ++ hf cls.code ++ " (" ++ class_label cls ++ ")" ++ "\n" := by
  unfold file_class_line
  rw [h]
  cases cls <;> decide

theorem padding_indices : List.range' EI_PAD (EI_NIDENT - EI_PAD) = [9, 10, 11, 12, 13, 14, 15] := by
  decide

theorem print_padding_eq (e_ident : List Byte) :
    MainHeader.print_padding e_ident =
      String.join ([9, 10, 11, 12, 13, 14, 15].map fun i => hf (e_ident.getD i 0).val ++ " ") := by
  unfold MainHeader.print_padding
  rw [padding_indices]

/-! ## Helper lemmas on the lines of the file header -/

theorem print_eq_lines (get_machine_description : Nat → String) (header : Elf_Ehdr) :
    MainHeader.print get_machine_description header =
      String.join (List.zipWith header_line header_prefixes
        (header_values get_machine_description header)) := by
  simp only [MainHeader.print, MainHeader.print_e_ident, header_prefixes, header_values,
    header_line, List.zipWith, join_cons, String.join, List.foldl, String.append_assoc,
    String.append_empty, String.empty_append]

theorem digitChar_ne_newline (k : Nat) : Nat.digitChar k ≠ '\n' := by
  by_cases h : k < 16
  · interval_cases k <;> decide
  · have e : Nat.digitChar k = '*' := by
      unfold Nat.digitChar
      simp only [show k ≠ 0 by omega, show k ≠ 1 by omega, show k ≠ 2 by omega,
        show k ≠ 3 by omega, show k ≠ 4 by omega, show k ≠ 5 by omega, show k ≠ 6 by omega,
        show k ≠ 7 by omega, show k ≠ 8 by omega, show k ≠ 9 by omega, show k ≠ 10 by omega,
        show k ≠ 11 by omega, show k ≠ 12 by omega, show k ≠ 13 by omega, show k ≠ 14 by omega,
        show k ≠ 15 by omega, if_false]
    rw [e]
    decide

theorem toNat_ofNat_byte (n : Nat) (h : n < 256) : (Char.ofNat n).toNat = n := by
  have hv : n.isValidChar := Or.inl (by omega)
  unfold Char.ofNat
  rw [dif_pos hv]
  rfl

theorem newline_not_mem_toDigitsCore (b f n : Nat) (ds : List Char) (h : '\n' ∉ ds) :
    '\n' ∉ Nat.toDigitsCore b f n ds := by
  induction f generalizing n ds with
  | zero => simpa [Nat.toDigitsCore] using h
  | succ f ih =>
    have hcons : '\n' ∉ Nat.digitChar (n % b) :: ds := by
      rw [List.mem_cons, not_or]
      exact ⟨fun e => digitChar_ne_newline _ e.symm, h⟩
    simp only [Nat.toDigitsCore]
    split
    · exact hcons
    · exact ih _ _ hcons

theorem line_count_append (a b : String) : line_count (a ++ b) = line_count a + line_count b := by
  simp [line_count, String.data_append, List.count_append]

theorem line_count_hf (v : Nat) : line_count (hf v) = 0 := by
  have h := newline_not_mem_toDigitsCore 16 (v + 1) v [] (by simp)
  have h0 : line_count "0x" = 0 := by decide
  rw [hf, line_count_append, h0, Nat.zero_add]
  exact List.count_eq_zero.mpr h

theorem line_count_dec (v : Nat) : line_count (dec v) = 0 :=
  List.count_eq_zero.mpr (newline_not_mem_toDigitsCore 10 (v + 1) v [] (by simp))

theorem to_str_mem (table : List String) (index : Nat) (default_value : String) :
    to_str table index default_value ∈ default_value :: table := by
  unfold to_str
  split
  · exact List.mem_cons_of_mem _ (List.get_mem _ _ _)
  · exact List.mem_cons_self _ _

theorem line_count_to_str (table : List String) (index : Nat) (default_value : String)
    (h : ∀ s ∈ default_value :: table, line_count s = 0) :
    line_count (to_str table index default_value) = 0 :=
  h _ (to_str_mem table index default_value)

theorem line_count_put_char (c : Byte) (h : c ≠ 10) : line_count (put_char c) = 0 := by
  have hc : Char.ofNat c.val ≠ '\n' := by
    intro e
    have h1 : (Char.ofNat c.val).toNat = 10 := by rw [e]; rfl
    have h2 : (Char.ofNat c.val).toNat = c.val := toNat_ofNat_byte c.val c.isLt
    apply h
    apply Fin.ext
    rw [← h2, h1]
    rfl
  have hd : (put_char c).data = [Char.ofNat c.val] := rfl
  rw [line_count, hd, List.count_eq_zero, List.mem_singleton]
  exact fun e => hc e.symm

theorem line_count_print_padding (e_ident : List Byte) :
    line_count (MainHeader.print_padding e_ident) = 0 := by
  have hsp : line_count " " = 0 := by decide
  have he : line_count "" = 0 := by decide
  simp only [print_padding_eq, List.map, join_cons, String.join, List.foldl, line_count_append,
    line_count_hf, hsp, he]

theorem line_count_join_lines (starts values : List String)
    (hs : ∀ p ∈ starts, line_count p = 0) (hv : ∀ v ∈ values, line_count v = 0) :
    line_count (String.join (List.zipWith header_line starts values)) =
      min starts.length values.length := by
  induction starts generalizing values with
  | nil => simp [String.join, line_count]
  | cons p ps ih =>
    cases values with
    | nil => simp [String.join, line_count]
    | cons v vs =>
      have hnl : line_count "\n" = 1 := by decide
      rw [List.zipWith_cons_cons, join_cons, line_count_append, header_line, line_count_append,
        line_count_append, hs p (List.mem_cons_self _ _), hv v (List.mem_cons_self _ _), hnl,
        ih vs (fun q hq => hs q (List.mem_cons_of_mem _ hq))
          (fun w hw => hv w (List.mem_cons_of_mem _ hw))]
      simp only [List.length_cons]
      omega

/-! ## Helper lemmas on reads that run past the end of the file -/

theorem main_header_parse_pos (cls : ElfClass) (header_ content : List Byte) (pos : Nat)
    (eofbit : Bool) :
    MainHeader.parse cls header_ ⟨content, pos, eofbit, false⟩ =
      MainHeader.parse cls header_ ⟨content, 0, false, false⟩ := by
  have h1 := seekg_of_not_fail ⟨content, pos, eofbit, false⟩ 0 rfl
  have h2 := seekg_of_not_fail ⟨content, 0, false, false⟩ 0 rfl
  simp only [Nat.cast_zero] at h1 h2
  unfold MainHeader.parse
  rw [h1, h2]

theorem elfview_pos {can_allocate : Nat → Bool}
    (cls : ElfClass) (get_machine_description : Nat → String)
    (header_ : List Byte) (storage : Nat → List Byte) (content : List Byte) (pos : Nat) :
    ELFView.view can_allocate cls get_machine_description header_ storage ⟨content, pos, false, false⟩ =
      ELFView.view can_allocate cls get_machine_description header_ storage ⟨content, 0, false, false⟩ := by
  unfold ELFView.view
  rw [main_header_parse_pos]

theorem get_object_class_fst_pos (content : List Byte) (pos pos2 : Nat) :
    (get_object_class ⟨content, pos, false, false⟩).1 =
      (get_object_class ⟨content, pos2, false, false⟩).1 := by
  cases hb : content[4]? with
  | none => rw [get_object_class_of_none _ _ hb, get_object_class_of_none _ _ hb]
  | some b => rw [get_object_class_of_some _ _ _ hb, get_object_class_of_some _ _ _ hb]

theorem view_none_of_dispatch {can_allocate : Nat → Bool}
    (get_machine_description : Nat → String) (header_ : List Byte)
    (storage : Nat → List Byte) (file : IFStream)
    (h : dispatch (get_object_class file).1 = none) :
    view can_allocate get_machine_description header_ storage file = { out := "", threw := false } := by
  simp only [view, h]

theorem view_pos {can_allocate : Nat → Bool}
    (get_machine_description : Nat → String) (header_ : List Byte)
    (storage : Nat → List Byte) (content : List Byte) (pos : Nat) :
    view can_allocate get_machine_description header_ storage ⟨content, pos, false, false⟩ =
      view can_allocate get_machine_description header_ storage ⟨content, 0, false, false⟩ := by
  have hfst := get_object_class_fst_pos content pos 0
  cases hd : dispatch (get_object_class ⟨content, pos, false, false⟩).1 with
  | none =>
    rw [view_none_of_dispatch _ _ _ _ hd, view_none_of_dispatch _ _ _ _ (by rw [← hfst]; exact hd)]
  | some cls =>
    rw [view_eq_of_dispatch _ _ _ _ _ _ hd,
      view_eq_of_dispatch _ _ _ _ _ _ (by rw [← hfst]; exact hd), elfview_pos]

theorem section_parse_storage {can_allocate : Nat → Bool}
    (cls : ElfClass) (storage other : Nat → List Byte)
    (main_header : Elf_Ehdr) (file_ : IFStream)
    (hfail : file_.failbit = false) (hlen : file_.content.length < 2 ^ 63)
    (htable : main_header.e_shoff + main_header.e_shnum * sizeof_Shdr cls ≤
      file_.content.length) :
    SectionHeader.parse can_allocate cls storage main_header file_ =
      SectionHeader.parse can_allocate cls other main_header file_ := by
  unfold SectionHeader.parse
  rw [parse_sections_within cls storage main_header file_ hfail hlen htable,
    parse_sections_within cls other main_header file_ hfail hlen htable]

theorem elfview_storage {can_allocate : Nat → Bool}
    (cls : ElfClass) (get_machine_description : Nat → String)
    (header_ other_ : List Byte) (storage other : Nat → List Byte) (content : List Byte)
    (hlen : content.length < 2 ^ 63) (hhdr : sizeof_Ehdr cls ≤ content.length)
    (htable : (decode_Ehdr cls (content.take (sizeof_Ehdr cls))).e_shoff +
      (decode_Ehdr cls (content.take (sizeof_Ehdr cls))).e_shnum * sizeof_Shdr cls ≤
        content.length) :
    ELFView.view can_allocate cls get_machine_description header_ storage ⟨content, 0, false, false⟩ =
      ELFView.view can_allocate cls get_machine_description other_ other ⟨content, 0, false, false⟩ := by
  unfold ELFView.view
  rw [main_header_parse_full cls header_ ⟨content, 0, false, false⟩ rfl hhdr,
    main_header_parse_full cls other_ ⟨content, 0, false, false⟩ rfl hhdr]
  simp only
  rw [section_parse_storage cls storage other _ ⟨content, sizeof_Ehdr cls, false, false⟩ rfl
    hlen htable]

/-! ## Theorems -/

/-- C1: `to_str` returns the table entry at `index` when `index` is smaller
than the table's size, and the default string otherwise; being a total
function, it never reads outside the table. -/
theorem to_str_spec (table : List String) (index : Nat) (default_value : String) :
    (∀ h : index < table.length, to_str table index default_value = table.get ⟨index, h⟩) ∧
    (table.length ≤ index → to_str table index default_value = default_value) := by
  constructor
  · intro h
    simp [to_str, h]
  · intro h
    simp [to_str, Nat.not_lt.mpr h]

theorem to_str_spec_witness :
    to_str ["Invalid version", "Current version"] 1 "Unknown" = "Current version" ∧
    to_str ["Invalid version", "Current version"] 2 "Unknown" = "Unknown" :=
  ⟨(to_str_spec ["Invalid version", "Current version"] 1 "Unknown").1 (by decide),
   (to_str_spec ["Invalid version", "Current version"] 2 "Unknown").2 (by decide)⟩

/-- C2: when the offset is inside the string table and a NUL byte occurs at
some position at or after it, `get_section_name` returns exactly the bytes
from the offset up to (not including) the first such NUL, hence a run that
contains no NUL. -/
theorem get_section_name_terminated (string_table_ : List Byte) (offset : Nat)
    (hoff : offset < string_table_.length)
    (hnul : ∃ k, offset ≤ k ∧ string_table_[k]? = some 0) :
    ∃ k, offset ≤ k ∧ string_table_[k]? = some 0 ∧
      (∀ j, offset ≤ j → j < k → string_table_[j]? ≠ some 0) ∧
      get_section_name string_table_ offset =
        (string_table_.drop offset).take (k - offset) ∧
      (get_section_name string_table_ offset).length = k - offset ∧
      (0 : Byte) ∉ get_section_name string_table_ offset := by
  obtain ⟨k0, hk0, hz0⟩ := hnul
  have hmem : (string_table_.drop offset)[k0 - offset]? = some 0 := by
    rw [List.getElem?_drop]
    rw [show offset + (k0 - offset) = k0 by omega]
    exact hz0
  have hlt := indexOf_zero_lt_of_getElem? _ _ hmem
  have hres : get_section_name string_table_ offset =
      (string_table_.drop offset).take ((string_table_.drop offset).indexOf (0 : Byte)) := by
    simp only [get_section_name, hoff, if_true]
    rw [if_pos (Nat.ne_of_lt hlt)]
  refine ⟨offset + (string_table_.drop offset).indexOf (0 : Byte), by omega, ?_, ?_, ?_, ?_, ?_⟩
  · have := getElem?_indexOf_zero _ hlt
    rwa [List.getElem?_drop] at this
  · intro j hj1 hj2
    have := getElem?_ne_of_lt_indexOf (string_table_.drop offset) (j - offset) (by omega)
    rw [List.getElem?_drop] at this
    rwa [show offset + (j - offset) = j by omega] at this
  · rw [hres]
    congr 1
    omega
  · rw [hres, List.length_take]
    omega
  · rw [hres]
    exact zero_not_mem_take_indexOf _

theorem get_section_name_terminated_witness :
    get_section_name scenario3_table 7 = [46, 100, 97, 116, 97] ∧
    bytesToString (get_section_name scenario3_table 7) = ".data" ∧
    ∃ k, 7 ≤ k ∧ scenario3_table[k]? = some 0 ∧
      (∀ j, 7 ≤ j → j < k → scenario3_table[j]? ≠ some 0) ∧
      get_section_name scenario3_table 7 = (scenario3_table.drop 7).take (k - 7) ∧
      (get_section_name scenario3_table 7).length = k - 7 ∧
      (0 : Byte) ∉ get_section_name scenario3_table 7 :=
  ⟨by decide, by decide,
   get_section_name_terminated scenario3_table 7 (by decide) ⟨12, by decide, by decide⟩⟩

/-- C3: when the offset is at or beyond the length of the string table (in
particular equal to it), or no NUL byte occurs at or after the offset,
`get_section_name` returns the empty string, and the section is printed under
the placeholder name. -/
theorem get_section_name_unterminated (string_table_ : List Byte) (offset : Nat)
    (h : string_table_.length ≤ offset ∨ ∀ k, offset ≤ k → string_table_[k]? ≠ some 0) :
    get_section_name string_table_ offset = [] ∧
    shown_section_name string_table_ offset = "No Name" ∧
    print_section string_table_ offset = "sh_name (section name): No Name\n" := by
  have hempty : get_section_name string_table_ offset = [] := by
    unfold get_section_name
    split
    · rename_i hlt
      rcases h with h | h
      · omega
      · have hidx : (string_table_.drop offset).indexOf (0 : Byte) =
            (string_table_.drop offset).length := by
          apply indexOf_zero_eq_length_of_forall
          intro k
          rw [List.getElem?_drop]
          exact h (offset + k) (by omega)
        simp [hidx]
    · rfl
  refine ⟨hempty, ?_, ?_⟩
  · simp only [shown_section_name, hempty]
    rfl
  · simp only [print_section, shown_section_name, hempty]
    rfl

theorem get_section_name_unterminated_witness :
    (get_section_name scenario3_table 13 = [] ∧
      shown_section_name scenario3_table 13 = "No Name" ∧
      print_section scenario3_table 13 = "sh_name (section name): No Name\n") ∧
    (get_section_name [46, 116, 101, 120, 116] 1 = [] ∧
      shown_section_name [46, 116, 101, 120, 116] 1 = "No Name" ∧
      print_section [46, 116, 101, 120, 116] 1 = "sh_name (section name): No Name\n") :=
  ⟨get_section_name_unterminated scenario3_table 13 (Or.inl (by decide)),
   get_section_name_unterminated [46, 116, 101, 120, 116] 1 (Or.inr (by
    intro k hk
    rcases Nat.lt_or_ge k 5 with h5 | h5
    · interval_cases k <;> decide
    · rw [List.getElem?_eq_none (by simpa using h5)]
      simp))⟩

/-- C4: when `e_shstrndx` is `SHN_UNDEF` or is not smaller than the number of
parsed section headers (which is `e_shnum`), `SectionHeader::parse` returns
normally with an empty string table, and `print` shows every section, whatever
its `sh_name`, under the name "No Name". -/
theorem parse_without_string_table (can_allocate : Nat → Bool)
    (cls : ElfClass) (storage : Nat → List Byte)
    (main_header : Elf_Ehdr) (file_ : IFStream)
    (h : main_header.e_shstrndx = SHN_UNDEF ∨
      (SectionHeader.parse_sections cls storage main_header file_).1.length ≤
        main_header.e_shstrndx) :
    ∃ sh f, SectionHeader.parse can_allocate cls storage main_header file_ = .ok (sh, f) ∧
      sh.string_table_ = [] ∧
      sh.sections_header_.length = main_header.e_shnum ∧
      (∀ sh_name, print_section sh.string_table_ sh_name =
        "sh_name (section name): No Name\n") ∧
      SectionHeader.print sh =
        "[Sections (" ++ dec main_header.e_shnum ++ ")]" ++ "\n" ++
          String.join ((List.range main_header.e_shnum).map fun i =>
            "Section " ++ dec i ++ "\n" ++ "sh_name (section name): No Name\n") := by
  have hst : SectionHeader.parse_string_table can_allocate main_header
      (SectionHeader.parse_sections cls storage main_header file_).1
      (SectionHeader.parse_sections cls storage main_header file_).2 =
      .ok ([], (SectionHeader.parse_sections cls storage main_header file_).2) := by
    unfold SectionHeader.parse_string_table
    rw [dif_neg]
    rintro ⟨h1, h2⟩
    rcases h with h | h
    · exact h1 h.symm
    · omega
  refine ⟨⟨[], (SectionHeader.parse_sections cls storage main_header file_).1⟩,
    (SectionHeader.parse_sections cls storage main_header file_).2, ?_, rfl, ?_, ?_, ?_⟩
  · simp only [SectionHeader.parse, hst]
  · exact length_parse_sections cls storage main_header file_
  · intro sh_name
    exact print_section_nil sh_name
  · simp only [SectionHeader.print, print_loop_eq_join, length_parse_sections,
      print_section_nil, Nat.zero_add]

theorem parse_without_string_table_witness :
    ∃ sh f, SectionHeader.parse (fun _ => true) .elf32 (fun _ => [])
        (decode_Ehdr .elf32 ((List.replicate 48 0) ++ [2, 0, 7, 0]))
        ⟨List.replicate 52 0, 52, false, false⟩ = .ok (sh, f) ∧
      sh.string_table_ = [] ∧
      sh.sections_header_.length =
        (decode_Ehdr .elf32 ((List.replicate 48 0) ++ [2, 0, 7, 0])).e_shnum ∧
      (∀ sh_name, print_section sh.string_table_ sh_name =
        "sh_name (section name): No Name\n") ∧
      SectionHeader.print sh =
        "[Sections (" ++
          dec (decode_Ehdr .elf32 ((List.replicate 48 0) ++ [2, 0, 7, 0])).e_shnum ++
          ")]" ++ "\n" ++
          String.join ((List.range
            (decode_Ehdr .elf32 ((List.replicate 48 0) ++ [2, 0, 7, 0])).e_shnum).map fun i =>
            "Section " ++ dec i ++ "\n" ++ "sh_name (section name): No Name\n") :=
  parse_without_string_table (fun _ => true) .elf32 (fun _ => [])
    (decode_Ehdr .elf32 ((List.replicate 48 0) ++ [2, 0, 7, 0]))
    ⟨List.replicate 52 0, 52, false, false⟩ (Or.inr (by decide))

/-- C5: on a usable stream over a file that holds the whole section header
table, when `e_shstrndx` is not `SHN_UNDEF` and is smaller than `e_shnum`, and
the bytes `sh_offset .. sh_offset + sh_size` of section number `e_shstrndx` lie
within the file, `SectionHeader::parse` returns normally and the string table
is exactly those bytes of the file, `sh_size` of them. -/
theorem parse_loads_string_table (can_allocate : Nat → Bool)
    (cls : ElfClass) (storage : Nat → List Byte)
    (main_header : Elf_Ehdr) (file_ : IFStream)
    (hfail : file_.failbit = false) (hlen : file_.content.length < 2 ^ 63)
    (htable : main_header.e_shoff + main_header.e_shnum * sizeof_Shdr cls ≤
      file_.content.length)
    (hndx0 : main_header.e_shstrndx ≠ SHN_UNDEF)
    (hndx : main_header.e_shstrndx < main_header.e_shnum)
    (hrange :
      (record_at cls file_.content main_header.e_shoff main_header.e_shstrndx).sh_offset +
        (record_at cls file_.content main_header.e_shoff main_header.e_shstrndx).sh_size ≤
      file_.content.length) :
    ∃ sh f, SectionHeader.parse can_allocate cls storage main_header file_ = .ok (sh, f) ∧
      sh.string_table_ =
        (file_.content.drop
          (record_at cls file_.content main_header.e_shoff main_header.e_shstrndx).sh_offset).take
          (record_at cls file_.content main_header.e_shoff main_header.e_shstrndx).sh_size ∧
      sh.string_table_.length =
        (record_at cls file_.content main_header.e_shoff main_header.e_shstrndx).sh_size := by
  have hget := parse_sections_getElem? cls storage main_header file_ hfail hlen htable
    main_header.e_shstrndx hndx
  have hst := @parse_string_table_of_some can_allocate main_header
    (SectionHeader.parse_sections cls storage main_header file_).1
    (SectionHeader.parse_sections cls storage main_header file_).2 _
    (fun e => hndx0 e.symm) hget
  have hs2 : (SectionHeader.parse_sections cls storage main_header file_).2.failbit = false := by
    rw [parse_sections_within cls storage main_header file_ hfail hlen htable]
  have hc2 : (SectionHeader.parse_sections cls storage main_header file_).2.content =
      file_.content := by
    rw [parse_sections_within cls storage main_header file_ hfail hlen htable]
  generalize record_at cls file_.content main_header.e_shoff main_header.e_shstrndx = rec
    at hrange hst ⊢
  have hmax : ¬ vector_max_size < rec.sh_size := by
    unfold vector_max_size
    omega
  have hl : ((file_.content.drop rec.sh_offset).take rec.sh_size).length = rec.sh_size := by
    rw [List.length_take, List.length_drop]
    omega
  have hserved : ¬ (file_.content.length < rec.sh_size ∧ can_allocate rec.sh_size = false) :=
    fun h => absurd h.1 (by omega)
  rw [if_neg hmax, hc2, if_neg hserved, to_streamoff_of_lt _ (by omega),
    seekg_of_not_fail _ _ hs2, hc2, read_within _ _ _ hrange, overwrite_full _ _ _ hl] at hst
  refine ⟨⟨(file_.content.drop rec.sh_offset).take rec.sh_size,
    (SectionHeader.parse_sections cls storage main_header file_).1⟩,
    ⟨file_.content, rec.sh_offset + rec.sh_size, false, false⟩, ?_, rfl, hl⟩
  simp only [SectionHeader.parse, hst]

set_option maxRecDepth 100000 in
theorem parse_loads_string_table_witness :
    ∃ sh f, SectionHeader.parse (fun _ => true) .elf32 (fun _ => []) (decode_Ehdr .elf32 sample_ehdr_bytes)
        sample_stream = .ok (sh, f) ∧
      sh.string_table_ = scenario3_table ∧ sh.string_table_.length = 13 :=
  let ⟨sh, f, h1, h2, h3⟩ := parse_loads_string_table (fun _ => true) .elf32 (fun _ => [])
    (decode_Ehdr .elf32 sample_ehdr_bytes) sample_stream rfl (by decide) (by decide)
    (by decide) (by decide) (by decide)
  ⟨sh, f, h1, h2.trans (by decide), h3.trans (by decide)⟩

set_option maxRecDepth 100000 in
/-- C6 (counterexample): on the 50-byte file the header read is short, so
`SectionHeader::parse` is reached with `failbit` set; the table of one record
at offset 0 lies within the file, yet the record pushed is the prior content of
the local `section_header`, not the decoding of the bytes of the file. -/
theorem failed_stream_record_is_storage :
    dispatch (get_object_class fifty_byte_stream).1 = some .elf32 ∧
    (MainHeader.parse .elf32 [] fifty_byte_stream).1.e_shoff = 0 ∧
    (MainHeader.parse .elf32 [] fifty_byte_stream).1.e_shnum = 1 ∧
    (MainHeader.parse .elf32 [] fifty_byte_stream).1.e_shoff +
        (MainHeader.parse .elf32 [] fifty_byte_stream).1.e_shnum * sizeof_Shdr .elf32 ≤
      fifty_byte_file.length ∧
    (MainHeader.parse .elf32 [] fifty_byte_stream).2.failbit = true ∧
    (SectionHeader.parse_sections .elf32 (fun _ => List.replicate 40 0x11)
        (MainHeader.parse .elf32 [] fifty_byte_stream).1
        (MainHeader.parse .elf32 [] fifty_byte_stream).2).1 =
      [decode_Shdr .elf32 (List.replicate 40 0x11)] ∧
    (decode_Shdr .elf32 (List.replicate 40 0x11)).sh_name = 0x11111111 ∧
    (record_at .elf32 fifty_byte_file 0 0).sh_name = 0x464c457f ∧
    (SectionHeader.parse_sections .elf32 (fun _ => List.replicate 40 0x11)
        (MainHeader.parse .elf32 [] fifty_byte_stream).1
        (MainHeader.parse .elf32 [] fifty_byte_stream).2).1[0]? ≠
      some (record_at .elf32 fifty_byte_file 0 0) := by
  decide

/-- C6 (amended): the loop of `SectionHeader::parse` yields exactly `e_shnum`
records; when the stream has not failed on entry (the file header read was
complete) and the file holds the whole table, record `i` is the decoding of
the bytes stored at `e_shoff + i * sizeof(Elf_Shdr)`; and whenever `parse`
returns, `print` writes the count `e_shnum` and then one "Section i" block per
record for `i = 0 .. e_shnum - 1`, in ascending order, block `i` showing
record `i`. -/
theorem parse_sections_in_order (can_allocate : Nat → Bool) (cls : ElfClass)
    (storage : Nat → List Byte)
    (main_header : Elf_Ehdr) (file_ : IFStream) :
    (SectionHeader.parse_sections cls storage main_header file_).1.length =
      main_header.e_shnum ∧
    (file_.failbit = false → file_.content.length < 2 ^ 63 →
      main_header.e_shoff + main_header.e_shnum * sizeof_Shdr cls ≤ file_.content.length →
      ∀ i, i < main_header.e_shnum →
        (SectionHeader.parse_sections cls storage main_header file_).1[i]? =
          some (record_at cls file_.content main_header.e_shoff i)) ∧
    (∀ sh f, SectionHeader.parse can_allocate cls storage main_header file_ = .ok (sh, f) →
      sh.sections_header_ = (SectionHeader.parse_sections cls storage main_header file_).1 ∧
      SectionHeader.print sh =
        "[Sections (" ++ dec main_header.e_shnum ++ ")]" ++ "\n" ++
          String.join ((List.range main_header.e_shnum).map fun i =>
            "Section " ++ dec i ++ "\n" ++
              print_section sh.string_table_
                ((sh.sections_header_[i]?.map fun h => h.sh_name).getD 0))) := by
  refine ⟨length_parse_sections cls storage main_header file_, ?_, ?_⟩
  · intro hfail hlen htable i hi
    exact parse_sections_getElem? cls storage main_header file_ hfail hlen htable i hi
  · intro sh f hparse
    have hsec : sh.sections_header_ =
        (SectionHeader.parse_sections cls storage main_header file_).1 := by
      unfold SectionHeader.parse at hparse
      cases hst : SectionHeader.parse_string_table can_allocate main_header
          (SectionHeader.parse_sections cls storage main_header file_).1
          (SectionHeader.parse_sections cls storage main_header file_).2 with
      | error e => simp [hst] at hparse
      | ok t =>
        simp only [hst, Except.ok.injEq, Prod.mk.injEq] at hparse
        rw [← hparse.1]
    refine ⟨hsec, ?_⟩
    have hlen : sh.sections_header_.length = main_header.e_shnum := by
      rw [hsec]
      exact length_parse_sections cls storage main_header file_
    simp only [SectionHeader.print, print_loop_eq_join, hlen, Nat.zero_add]

set_option maxRecDepth 100000 in
theorem parse_sections_in_order_witness :
    (SectionHeader.parse_sections .elf32 (fun _ => []) (decode_Ehdr .elf32 sample_ehdr_bytes)
      sample_stream).1.length = 3 ∧
    (SectionHeader.parse_sections .elf32 (fun _ => []) (decode_Ehdr .elf32 sample_ehdr_bytes)
      sample_stream).1[1]? = some (record_at .elf32 sample_file 65 1) ∧
    (record_at .elf32 sample_file 65 1).sh_name = 7 ∧
    SectionHeader.print ⟨scenario3_table, [record_at .elf32 sample_file 65 0,
        record_at .elf32 sample_file 65 1, record_at .elf32 sample_file 65 2]⟩ =
      "[Sections (3)]\nSection 0\nsh_name (section name): No Name\nSection 1\nsh_name (section name): .data\nSection 2\nsh_name (section name): .text\n" :=
  ⟨(parse_sections_in_order (fun _ => true) .elf32 (fun _ => []) (decode_Ehdr .elf32 sample_ehdr_bytes)
      sample_stream).1,
   (parse_sections_in_order (fun _ => true) .elf32 (fun _ => []) (decode_Ehdr .elf32 sample_ehdr_bytes)
      sample_stream).2.1 rfl (by decide) (by decide) 1 (by decide),
   by decide,
   ((parse_sections_in_order (fun _ => true) .elf32 (fun _ => []) (decode_Ehdr .elf32 sample_ehdr_bytes)
      sample_stream).2.2
        ⟨scenario3_table, [record_at .elf32 sample_file 65 0,
          record_at .elf32 sample_file 65 1, record_at .elf32 sample_file 65 2]⟩
        ⟨sample_file, 65, false, false⟩ (by rfl)).2.trans (by decide)⟩

/-- C7: on a stream in the good state, `view` takes the 32-bit path exactly
when the byte at file offset 4 is 1 and the 64-bit path exactly when it is 2;
for every other value, and when the file has no byte at offset 4, it writes
nothing and returns normally. -/
theorem view_dispatch (can_allocate : Nat → Bool)
    (get_machine_description : Nat → String) (header_ : List Byte)
    (storage : Nat → List Byte) (file : IFStream) (hgood : file.good = true) :
    (dispatch (get_object_class file).1 = some .elf32 ↔ file.content[4]? = some 1) ∧
    (dispatch (get_object_class file).1 = some .elf64 ↔ file.content[4]? = some 2) ∧
    (∀ cls, dispatch (get_object_class file).1 = some cls →
      view can_allocate get_machine_description header_ storage file =
        ELFView.view can_allocate cls get_machine_description header_ storage file) ∧
    (file.content[4]? ≠ some 1 → file.content[4]? ≠ some 2 →
      dispatch (get_object_class file).1 = none ∧
      view can_allocate get_machine_description header_ storage file = { out := "", threw := false }) := by
  rw [good_iff] at hgood
  generalize file.content = content at hgood
  generalize file.pos = pos at hgood
  subst hgood
  cases hb : content[4]? with
  | none =>
    have hc := get_object_class_of_none content pos hb
    have hd : dispatch (-1) = none := by decide
    refine ⟨?_, ?_, ?_, ?_⟩
    · simp [hc, hd]
    · simp [hc, hd]
    · intro cls h
      simp [hc, hd] at h
    · intro _ _
      simp [view, hc, hd]
  | some b =>
    have hc := get_object_class_of_some content pos b hb
    obtain ⟨h1, h2, h3⟩ := dispatch_byte b
    refine ⟨?_, ?_, ?_, ?_⟩
    · simp only [hc, h1, Option.some.injEq]
    · simp only [hc, h2, Option.some.injEq]
    · intro cls h
      simp only [hc] at h
      simp only [view, hc, h]
    · intro n1 n2
      have hn := h3 (fun e => n1 (by rw [e])) (fun e => n2 (by rw [e]))
      simp only [view, hc, hn, and_self]

theorem view_dispatch_witness :
    (dispatch (get_object_class sample_stream).1 = some .elf32 ↔
      sample_stream.content[4]? = some 1) ∧
    (dispatch (get_object_class sample_stream).1 = some .elf64 ↔
      sample_stream.content[4]? = some 2) ∧
    (∀ cls, dispatch (get_object_class sample_stream).1 = some cls →
      view (fun _ => true) (fun _ => "") [] (fun _ => []) sample_stream =
        ELFView.view (fun _ => true) cls (fun _ => "") [] (fun _ => []) sample_stream) ∧
    (sample_stream.content[4]? ≠ some 1 → sample_stream.content[4]? ≠ some 2 →
      dispatch (get_object_class sample_stream).1 = none ∧
      view (fun _ => true) (fun _ => "") [] (fun _ => []) sample_stream = { out := "", threw := false }) :=
  view_dispatch (fun _ => true) (fun _ => "") [] (fun _ => []) sample_stream rfl

/-- C8 (evaluation at the failing input): on a three-byte file positioned at
offset 3, `get_object_class` returns `EOF` and leaves the stream failed with
its position at 4, not at 3: the restoring seek of `fbackup` is refused because
`failbit` is set, and `tellg()` then reports `-1`. -/
theorem get_object_class_at_eof :
    three_byte_stream.tellg.1 = 3 ∧
    get_object_class three_byte_stream = (-1, ⟨[0x7f, 0x45, 0x4c], 4, false, true⟩) ∧
    (get_object_class three_byte_stream).2.tellg.1 = -1 := by
  decide

/-- C9: on a stream that has not failed, over a file of at least
`sizeof(Elf_Ehdr)` bytes, `MainHeader::parse` yields the header decoded from
exactly the first `sizeof(Elf_Ehdr)` bytes of the file, whatever the prior read
position (and whatever the prior content of the record). -/
theorem main_header_parse_from_start (cls : ElfClass) (header_ : List Byte) (file_ : IFStream)
    (hfail : file_.failbit = false) (hlen : sizeof_Ehdr cls ≤ file_.content.length) :
    MainHeader.parse cls header_ file_ =
      (decode_Ehdr cls (file_.content.take (sizeof_Ehdr cls)),
        ⟨file_.content, sizeof_Ehdr cls, false, false⟩) ∧
    ∀ (pos : Nat) (eofbit : Bool) (other : List Byte),
      (MainHeader.parse cls other ⟨file_.content, pos, eofbit, false⟩).1 =
        (MainHeader.parse cls header_ file_).1 := by
  have key : ∀ (h_ : List Byte) (f : IFStream), f.failbit = false →
      sizeof_Ehdr cls ≤ f.content.length →
      MainHeader.parse cls h_ f =
        (decode_Ehdr cls (f.content.take (sizeof_Ehdr cls)),
          ⟨f.content, sizeof_Ehdr cls, false, false⟩) := by
    intro h_ f hf hl
    have hs := seekg_of_not_fail f 0 hf
    have hr := read_within f.content 0 (sizeof_Ehdr cls) (by omega)
    have hlt : (f.content.take (sizeof_Ehdr cls)).length = sizeof_Ehdr cls := by
      rw [List.length_take]
      omega
    unfold MainHeader.parse
    simp only [Nat.cast_zero] at hs
    rw [hs]
    simp only [hr, List.drop_zero, Nat.zero_add]
    rw [overwrite_full _ _ _ hlt]
  refine ⟨key header_ file_ hfail hlen, ?_⟩
  intro pos eofbit other
  rw [key header_ file_ hfail hlen, key other ⟨file_.content, pos, eofbit, false⟩ rfl hlen]

set_option maxRecDepth 100000 in
theorem main_header_parse_from_start_witness :
    MainHeader.parse .elf32 [] sample_stream =
      (decode_Ehdr .elf32 (sample_stream.content.take (sizeof_Ehdr .elf32)),
        ⟨sample_stream.content, sizeof_Ehdr .elf32, false, false⟩) ∧
    ∀ (pos : Nat) (eofbit : Bool) (other : List Byte),
      (MainHeader.parse .elf32 other ⟨sample_stream.content, pos, eofbit, false⟩).1 =
        (MainHeader.parse .elf32 [] sample_stream).1 :=
  main_header_parse_from_start .elf32 [] sample_stream rfl (by decide)

set_option maxRecDepth 100000 in
/-- C10 (counterexample): a five-byte file whose class byte selects the 32-bit
layout is shorter than the 52-byte file header, yet `view` renders a file
header and goes on to the section list. -/
theorem short_header_is_rendered :
    five_byte_stream.content.length < sizeof_Ehdr .elf32 ∧
    dispatch (get_object_class five_byte_stream).1 = some .elf32 ∧
    view (fun _ => true) (fun _ => "") [] (fun _ => []) five_byte_stream =
      { out := "[ELF Header]\ne_ident:\n\tFile identification [0] = 0x7f\n\tFile identification [1] = 'E'\n\tFile identification [2] = 'L'\n\tFile identification [3] = 'F'\n\tFile class [4] = 0x1 (32-bit objects)\n\tData encoding [5] = 0x0 (Invalid data encoding)\n\tELF header version number [6] = 0x0 (Invalid version)\n\tPadding bytes: 0x0 0x0 0x0 0x0 0x0 0x0 0x0 \ne_type (object file type): 0x0 (No file type)\ne_machine (architecture): 0x0 ()\ne_version (object file version): 0x0 (Invalid version)\ne_entry (entry point): 0x0\ne_phoff (program header table): 0x0\ne_shoff (section header table): 0x0\ne_flags (processor specific flags): 0x0\ne_ehsize (ELF header size): 0\ne_phentsize (program header entry size): 0\ne_phnum (number of entries in program header): 0\ne_shentsize (section header size): 0\ne_shnum (number of entries in section header): 0\ne_shstrndx (index of section string table): 0\n\n[Sections (0)]\n\n",
        threw := false } ∧
    (view (fun _ => true) (fun _ => "") [] (fun _ => []) five_byte_stream).out ≠ "" := by
  decide

/-- C10 (amended): when the file is shorter than `sizeof(Elf_Ehdr)` for the
selected class, the header read comes up short and leaves the stream failed,
but nothing checks that state: `view` still renders a file header (decoded from
the bytes read followed by the prior content of the record) and still runs
the section parse, whose reads all fail and which yields `e_shnum` records
holding no byte of the file. -/
theorem short_header_not_propagated (can_allocate : Nat → Bool)
    (get_machine_description : Nat → String)
    (header_ : List Byte) (storage : Nat → List Byte) (file : IFStream) (cls : ElfClass)
    (hgood : file.good = true)
    (hcls : dispatch (get_object_class file).1 = some cls)
    (hlen : file.content.length < sizeof_Ehdr cls) :
    MainHeader.parse cls header_ file =
      (short_header cls header_ file.content, stream_at_eof file.content) ∧
    view can_allocate get_machine_description header_ storage file =
      (match SectionHeader.parse can_allocate cls storage (short_header cls header_ file.content)
          (stream_at_eof file.content) with
        | .error _ =>
          { out := MainHeader.print get_machine_description
              (short_header cls header_ file.content) ++ "\n", threw := true }
        | .ok sh =>
          { out := MainHeader.print get_machine_description
              (short_header cls header_ file.content) ++ "\n" ++
              SectionHeader.print sh.1 ++ "\n", threw := false }) ∧
    (∃ rest, (view can_allocate get_machine_description header_ storage file).out =
      MainHeader.print get_machine_description (short_header cls header_ file.content) ++
        "\n" ++ rest) ∧
    SectionHeader.parse_sections cls storage (short_header cls header_ file.content)
        (stream_at_eof file.content) =
      ((List.range (short_header cls header_ file.content).e_shnum).map fun i =>
          decode_Shdr cls (overwrite (sizeof_Shdr cls) (storage i) []),
        ⟨file.content, file.content.length, false, true⟩) := by
  rw [good_iff] at hgood
  generalize file.content = content at hgood hlen
  generalize file.pos = pos at hgood
  subst hgood
  have hp := main_header_parse_short cls header_ content pos hlen
  have hv : view can_allocate get_machine_description header_ storage ⟨content, pos, false, false⟩ =
      (match SectionHeader.parse can_allocate cls storage (short_header cls header_ content)
          (stream_at_eof content) with
        | .error _ =>
          { out := MainHeader.print get_machine_description
              (short_header cls header_ content) ++ "\n", threw := true }
        | .ok sh =>
          { out := MainHeader.print get_machine_description
              (short_header cls header_ content) ++ "\n" ++
              SectionHeader.print sh.1 ++ "\n", threw := false }) := by
    rw [view_eq_of_dispatch _ _ _ _ _ _ hcls]
    unfold ELFView.view
    simp only [hp]
    rfl
  refine ⟨hp, hv, ?_, parse_sections_of_eof cls storage _ content⟩
  rw [hv]
  cases SectionHeader.parse can_allocate cls storage (short_header cls header_ content)
      (stream_at_eof content) with
  | error e => exact ⟨"", by simp⟩
  | ok sh => exact ⟨SectionHeader.print sh.1 ++ "\n", by simp [String.append_assoc]⟩

set_option maxRecDepth 100000 in
theorem short_header_not_propagated_witness :
    (∃ rest, (view (fun _ => true) (fun _ => "") [] (fun _ => []) five_byte_stream).out =
      MainHeader.print (fun _ => "") (short_header .elf32 [] five_byte_stream.content) ++
        "\n" ++ rest) ∧
    (MainHeader.parse .elf32 [] five_byte_stream).2.failbit = true :=
  ⟨(short_header_not_propagated (fun _ => true) (fun _ => "") [] (fun _ => []) five_byte_stream .elf32
      rfl (by decide) (by decide)).2.2.1,
   by decide⟩

/-- C12: `MainHeader::print` writes the `e_type` line right after the
identification block; its label is "No file type", "Relocatable file",
"Executable file", "Shared object file", "Core file" for the codes 0, 1, 2, 3,
4, and the fallback "Unknown 'e_type' field" for every code greater than 6; for
`e_type = 2` the line is "e_type (object file type): 0x2 (Executable file)". -/
theorem e_type_line_spec (get_machine_description : Nat → String) (header : Elf_Ehdr) :
    (∃ rest, MainHeader.print get_machine_description header =
      MainHeader.print_e_ident header.e_ident ++
        ("e_type (object file type): " ++ hf header.e_type ++ " (" ++
          e_type_label header.e_type ++ ")" ++ "\n") ++ rest) ∧
    e_type_label 0 = "No file type" ∧
    e_type_label 1 = "Relocatable file" ∧
    e_type_label 2 = "Executable file" ∧
    e_type_label 3 = "Shared object file" ∧
    e_type_label 4 = "Core file" ∧
    (6 < header.e_type → e_type_label header.e_type = "Unknown 'e_type' field") ∧
    (header.e_type = 2 →
      e_type_line header.e_type = "e_type (object file type): 0x2 (Executable file)\n") := by
  refine ⟨⟨lines_after_e_type get_machine_description header, ?_⟩, by decide, by decide,
    by decide, by decide, by decide, ?_, ?_⟩
  · exact print_eq_e_type_line get_machine_description header
  · intro h
    exact to_str_of_le _ _ _ (by simpa [e_type_table] using h)
  · intro h
    rw [h]
    decide

set_option maxRecDepth 100000 in
theorem e_type_line_spec_witness :
    e_type_label (decode_Ehdr .elf32 (List.replicate 16 0 ++ [0x34, 0x12])).e_type =
      "Unknown 'e_type' field" ∧
    e_type_line (decode_Ehdr .elf32 sample_ehdr_bytes).e_type =
      "e_type (object file type): 0x2 (Executable file)\n" :=
  ⟨(e_type_line_spec (fun _ => "") (decode_Ehdr .elf32 (List.replicate 16 0 ++ [0x34, 0x12]))).2.2.2.2.2.2.1
      (by decide),
   (e_type_line_spec (fun _ => "") (decode_Ehdr .elf32 sample_ehdr_bytes)).2.2.2.2.2.2.2
      (by decide)⟩

/-- C13 (evaluation at the failing input): for `e_type = ET_LOPROC` and for
`e_type = ET_HIPROC` the lookup is out of the table's range and the label is
the fallback; the entries the source comments mark as `ET_LOPROC` and
`ET_HIPROC` sit at the positions 5 and 6. -/
theorem e_type_processor_specific :
    e_type_line ET_LOPROC = "e_type (object file type): 0xff00 (Unknown 'e_type' field)\n" ∧
    e_type_line ET_HIPROC = "e_type (object file type): 0xffff (Unknown 'e_type' field)\n" ∧
    e_type_label 5 = "Processor-specific" ∧
    e_type_label 6 = "Processor-specific" := by
  decide

/-- C16: `hf(v)` is the two characters "0x" followed by the lowercase
hexadecimal digits of `v`, at least one, with no leading zero ("0x0" for
`v = 0`); reading the digits after the prefix back in base 16 gives `v`. -/
theorem hf_spec (v : Nat) :
    ∃ digits : List Char, hf v = "0x" ++ String.mk digits ∧
      (hf v).data = '0' :: 'x' :: digits ∧
      digits ≠ [] ∧
      (∀ c ∈ digits, c ∈ hex_digits) ∧
      (v ≠ 0 → digits.head? ≠ some '0') ∧
      (v = 0 → hf v = "0x0") ∧
      read_hex digits = v := by
  obtain ⟨h1, h2, h3, h4, h5⟩ := toDigitsCore_hex (v + 1) v (Nat.lt_succ_self v)
  refine ⟨Nat.toDigits 16 v, rfl, ?_, h1, h2, h3, ?_, h5⟩
  · simp [hf, String.data_append]
  · intro hz
    have := h4 hz
    unfold Nat.toDigits at *
    rw [hf, Nat.toDigits, this]
    rfl

theorem hf_spec_witness :
    hf 0 = "0x0" ∧ hf 0xff00 = "0xff00" ∧ read_hex ['f', 'f', '0', '0'] = 0xff00 ∧
    ∃ digits : List Char, hf 0x1f = "0x" ++ String.mk digits ∧
      digits.head? ≠ some '0' ∧ read_hex digits = 0x1f :=
  ⟨(let ⟨_, _, _, _, _, _, h0, _⟩ := hf_spec 0
    h0 rfl),
   by decide, by decide,
   (let ⟨d, h1, _, _, _, h5, _, h7⟩ := hf_spec 0x1f
    ⟨d, h1, h5 (by decide), h7⟩)⟩

/-- C14: for both layouts and every byte string of exactly `sizeof(record)`
bytes, decoding the file header (or the section header) and re-encoding its
fields with the same raw layout gives back the byte string; the same holds for
the header that `MainHeader::parse` reads from a file made of those bytes; and
two byte strings of that size that decode to the same record are equal. -/
theorem record_round_trip (cls : ElfClass) (bytes : List Byte) :
    (bytes.length = sizeof_Ehdr cls →
      encode_Ehdr cls (decode_Ehdr cls bytes) = bytes ∧
      (∀ (header_ : List Byte) (pos : Nat) (eofbit : Bool),
        encode_Ehdr cls (MainHeader.parse cls header_ ⟨bytes, pos, eofbit, false⟩).1 = bytes) ∧
      (∀ other : List Byte, other.length = sizeof_Ehdr cls →
        decode_Ehdr cls bytes = decode_Ehdr cls other → bytes = other)) ∧
    (bytes.length = sizeof_Shdr cls →
      encode_Shdr cls (decode_Shdr cls bytes) = bytes ∧
      (∀ other : List Byte, other.length = sizeof_Shdr cls →
        decode_Shdr cls bytes = decode_Shdr cls other → bytes = other)) := by
  constructor
  · intro h
    refine ⟨encode_decode_Ehdr cls bytes h, ?_, ?_⟩
    · intro header_ pos eofbit
      rw [main_header_parse_full cls header_ ⟨bytes, pos, eofbit, false⟩ rfl (by simp [h])]
      simp only
      rw [List.take_of_length_le (by omega)]
      exact encode_decode_Ehdr cls bytes h
    · intro other ho heq
      rw [← encode_decode_Ehdr cls bytes h, ← encode_decode_Ehdr cls other ho, heq]
  · intro h
    refine ⟨encode_decode_Shdr cls bytes h, ?_⟩
    intro other ho heq
    rw [← encode_decode_Shdr cls bytes h, ← encode_decode_Shdr cls other ho, heq]

set_option maxRecDepth 100000 in
theorem record_round_trip_witness :
    encode_Ehdr .elf32 (decode_Ehdr .elf32 sample_ehdr_bytes) = sample_ehdr_bytes ∧
    encode_Shdr .elf64 (decode_Shdr .elf64 (sample_ehdr_bytes ++ List.replicate 12 7)) =
      sample_ehdr_bytes ++ List.replicate 12 7 :=
  ⟨((record_round_trip .elf32 sample_ehdr_bytes).1 (by decide)).1,
   ((record_round_trip .elf64 (sample_ehdr_bytes ++ List.replicate 12 7)).2 (by decide)).1⟩

/-- C19: on a stream in the good state, whenever `view` writes anything it has
taken a decoding path, the class byte of the parsed header is the probed byte,
and the "File class" line carries the label of that path: "32-bit objects" on
the 32-bit path and "64-bit objects" on the 64-bit path, hence neither
"Invalid class" nor the fallback. -/
theorem file_class_label_agrees (can_allocate : Nat → Bool) (get_machine_description : Nat → String)
    (header_ : List Byte) (storage : Nat → List Byte) (file : IFStream)
    (hgood : file.good = true)
    (hout : (view can_allocate get_machine_description header_ storage file).out ≠ "") :
    ∃ cls, dispatch (get_object_class file).1 = some cls ∧
      view can_allocate get_machine_description header_ storage file =
        ELFView.view can_allocate cls get_machine_description header_ storage file ∧
      (((MainHeader.parse cls header_ file).1.e_ident.getD EI_CLASS 0).val : Int) =
        (get_object_class file).1 ∧
      file_class_line (MainHeader.parse cls header_ file).1.e_ident =
        "\tFile class [4] = " ++ hf cls.code ++ " (" ++ class_label cls ++ ")" ++ "\n" ∧
      ∃ rest, (view can_allocate get_machine_description header_ storage file).out =
        lines_before_file_class (MainHeader.parse cls header_ file).1.e_ident ++
          ("\tFile class [4] = " ++ hf cls.code ++ " (" ++ class_label cls ++ ")" ++ "\n") ++
          rest := by
  rw [good_iff] at hgood
  generalize file.content = content at hgood
  generalize file.pos = pos at hgood
  subst hgood
  cases hb : content[4]? with
  | none =>
    have hc := get_object_class_of_none content pos hb
    have hd : dispatch (-1) = none := by decide
    exact absurd (by simp [view, hc, hd]) hout
  | some b =>
    have hc := get_object_class_of_some content pos b hb
    cases hd : dispatch (b.val : Int) with
    | none => exact absurd (by simp [view, hc, hd]) hout
    | some cls =>
      have hlen : 4 < content.length := (List.getElem?_eq_some.mp hb).1
      have hbyte : (MainHeader.parse cls header_ ⟨content, pos, false, false⟩).1.e_ident.getD
          EI_CLASS 0 = b := by
        rw [show EI_CLASS = 4 from rfl, parsed_e_ident_of_lt cls header_ content pos false 4
          (by omega) hlen]
        simp [List.getD_eq_getElem?_getD, hb]
      have hcode : b.val = cls.code := by
        obtain ⟨h1, h2, _⟩ := dispatch_byte b
        cases cls with
        | elf32 => rw [h1.mp hd]; rfl
        | elf64 => rw [h2.mp hd]; rfl
      have hline := file_class_line_of_code cls
        (MainHeader.parse cls header_ ⟨content, pos, false, false⟩).1.e_ident
        (by rw [hbyte]; exact hcode)
      have hview := @view_eq_of_dispatch can_allocate get_machine_description header_ storage
        content pos cls (by rw [hc]; exact hd)
      refine ⟨cls, by rw [hc]; exact hd, hview, by rw [hbyte, hc], hline, ?_⟩
      obtain ⟨rest, hrest⟩ := elfview_out_prefix cls get_machine_description header_ storage
        ⟨content, pos, false, false⟩
      rw [hview, hrest, print_eq_e_type_line, print_e_ident_eq_lines, hline]
      generalize (MainHeader.parse cls header_ ⟨content, pos, false, false⟩).1 = hdr
      refine ⟨encoding_and_version_lines hdr.e_ident ++ (padding_line hdr.e_ident ++
        (e_type_line hdr.e_type ++ (lines_after_e_type get_machine_description hdr ++ rest))), ?_⟩
      simp only [String.append_assoc]

set_option maxRecDepth 100000 in
theorem file_class_label_agrees_witness :
    ∃ cls, dispatch (get_object_class sample_stream).1 = some cls ∧
      file_class_line (MainHeader.parse cls [] sample_stream).1.e_ident =
        "\tFile class [4] = " ++ hf cls.code ++ " (" ++ class_label cls ++ ")" ++ "\n" :=
  let ⟨cls, h1, _, _, h4, _⟩ :=
    file_class_label_agrees (fun _ => true) (fun _ => "") [] (fun _ => []) sample_stream rfl (by decide)
  ⟨cls, h1, h4⟩

set_option maxRecDepth 100000 in
/-- C18 (counterexample): for an identification block whose bytes 7 and 8 are
`0xaa` and `0xbb`, the "Padding bytes" line shows the bytes 9 to 15 only, and
the whole rendering is the same as for the block with those two bytes cleared. -/
theorem padding_line_skips_osabi :
    padding_line osabi_e_ident = "\tPadding bytes: 0x9 0xa 0xb 0xc 0xd 0xe 0xf \n" ∧
    padding_line osabi_e_ident ≠
      "\tPadding bytes: " ++
        String.join ((List.range' 7 9).map fun i => hf (osabi_e_ident.getD i 0).val ++ " ") ++
        "\n" ∧
    osabi_e_ident ≠ plain_e_ident ∧
    MainHeader.print_e_ident osabi_e_ident = MainHeader.print_e_ident plain_e_ident := by
  decide

/-- C18 (amended): `print_e_ident` ends with the "Padding bytes" line, which
lists the bytes at the indices `EI_PAD = 9` to 15, each in `0x`-prefixed
hexadecimal, in index order; the rendering reads the bytes 0 to 6 and 9 to 15
and does not depend on the bytes at the indices 7 and 8. -/
theorem padding_line_spec (e_ident : List Byte) :
    MainHeader.print_e_ident e_ident =
      lines_before_file_class e_ident ++ file_class_line e_ident ++
        encoding_and_version_lines e_ident ++ padding_line e_ident ∧
    padding_line e_ident =
      "\tPadding bytes: " ++
        String.join ([9, 10, 11, 12, 13, 14, 15].map fun i =>
          hf (e_ident.getD i 0).val ++ " ") ++ "\n" ∧
    (∀ other : List Byte,
      (∀ i, i ≠ 7 → i ≠ 8 → other.getD i 0 = e_ident.getD i 0) →
      MainHeader.print_e_ident other = MainHeader.print_e_ident e_ident) := by
  refine ⟨print_e_ident_eq_lines e_ident, ?_, ?_⟩
  · rw [padding_line, print_padding_eq]
  · intro other h
    have h0 := h 0 (by decide) (by decide)
    have h1 := h 1 (by decide) (by decide)
    have h2 := h 2 (by decide) (by decide)
    have h3 := h 3 (by decide) (by decide)
    have h4 := h 4 (by decide) (by decide)
    have h5 := h 5 (by decide) (by decide)
    have h6 := h 6 (by decide) (by decide)
    have h9 := h 9 (by decide) (by decide)
    have h10 := h 10 (by decide) (by decide)
    have h11 := h 11 (by decide) (by decide)
    have h12 := h 12 (by decide) (by decide)
    have h13 := h 13 (by decide) (by decide)
    have h14 := h 14 (by decide) (by decide)
    have h15 := h 15 (by decide) (by decide)
    simp only [MainHeader.print_e_ident, print_padding_eq, List.map, EI_MAG0, EI_MAG1, EI_MAG2,
      EI_MAG3, EI_CLASS, EI_DATA, EI_VERSION, h0, h1, h2, h3, h4, h5, h6, h9, h10, h11, h12,
      h13, h14, h15]

set_option maxRecDepth 100000 in
theorem padding_line_spec_witness :
    MainHeader.print_e_ident osabi_e_ident = MainHeader.print_e_ident plain_e_ident :=
  (padding_line_spec plain_e_ident).2.2 osabi_e_ident (by
    intro i h7 h8
    rcases Nat.lt_or_ge i 16 with h | h
    · interval_cases i <;> first | rfl | exact absurd rfl h7 | exact absurd rfl h8
    · rw [List.getD_eq_getElem?_getD, List.getD_eq_getElem?_getD,
        List.getElem?_eq_none (show osabi_e_ident.length ≤ i from h),
        List.getElem?_eq_none (show plain_e_ident.length ≤ i from h)])

set_option maxRecDepth 100000 in
/-- C17 (counterexample): a header whose byte `e_ident[EI_MAG1]` is the line
feed is rendered with 24 line breaks, not 23, because that byte is written raw
between the quotes. -/
theorem header_print_extra_line :
    (decode_Ehdr .elf32 newline_ehdr_bytes).e_ident.getD EI_MAG1 0 = 10 ∧
    line_count (MainHeader.print (fun _ => "") (decode_Ehdr .elf32 newline_ehdr_bytes)) = 24 ∧
    line_count (MainHeader.print (fun _ => "") (decode_Ehdr .elf32 sample_ehdr_bytes)) = 23 := by
  decide

/-- C17 (amended): `MainHeader::print` writes 23 prefixed fields in a fixed
order (the two headings, 8 identification lines, 13 field lines), each followed
by one line break; when none of the three magic bytes written as characters is
the line feed and the machine description holds no line feed, no value holds a
line break and the output has exactly 23 lines, whatever the field values. -/
theorem header_print_lines (get_machine_description : Nat → String) (header : Elf_Ehdr)
    (hmd : ∀ code, line_count (get_machine_description code) = 0)
    (hmag : ∀ i, EI_MAG1 ≤ i → i ≤ EI_MAG3 → header.e_ident.getD i 0 ≠ 10) :
    header_prefixes.length = 23 ∧
    (header_values get_machine_description header).length = 23 ∧
    MainHeader.print get_machine_description header =
      String.join (List.zipWith header_line header_prefixes
        (header_values get_machine_description header)) ∧
    (∀ p ∈ header_prefixes, line_count p = 0) ∧
    (∀ v ∈ header_values get_machine_description header, line_count v = 0) ∧
    line_count (MainHeader.print get_machine_description header) = 23 := by
  have hp : ∀ p ∈ header_prefixes, line_count p = 0 := by decide
  have hq : line_count "'" = 0 := by decide
  have ho : line_count " (" = 0 := by decide
  have hc : line_count ")" = 0 := by decide
  have he : line_count "" = 0 := by decide
  have t1 : ∀ i, line_count (to_str ["Invalid class", "32-bit objects", "64-bit objects"] i
      "Unknown 'EI_CLASS' field") = 0 := fun i => line_count_to_str _ _ _ (by decide)
  have t2 : ∀ i, line_count (to_str ["Invalid data encoding", "Little-endian", "Big-endian"] i
      "Unknown 'EI_DATA' field") = 0 := fun i => line_count_to_str _ _ _ (by decide)
  have t3 : ∀ i, line_count (to_str ["Invalid version", "Current version"] i
      "Unknown 'EI_VERSION' field") = 0 := fun i => line_count_to_str _ _ _ (by decide)
  have t4 : ∀ i, line_count (to_str ["No file type", "Relocatable file", "Executable file",
      "Shared object file", "Core file", "Processor-specific", "Processor-specific"] i
      "Unknown 'e_type' field") = 0 := fun i => line_count_to_str _ _ _ (by decide)
  have t5 : ∀ i, line_count (to_str ["Invalid version", "Current version"] i
      "Unknown 'e_version' field") = 0 := fun i => line_count_to_str _ _ _ (by decide)
  have m1 := line_count_put_char _ (hmag 1 (by decide) (by decide))
  have m2 := line_count_put_char _ (hmag 2 (by decide) (by decide))
  have m3 := line_count_put_char _ (hmag 3 (by decide) (by decide))
  have hv : ∀ v ∈ header_values get_machine_description header, line_count v = 0 := by
    simp only [header_values, List.forall_mem_cons, line_count_append, line_count_hf,
      line_count_dec, line_count_print_padding, hq, ho, hc, he, t1, t2, t3, t4, t5, hmd,
      EI_MAG1, EI_MAG2, EI_MAG3, m1, m2, m3, List.not_mem_nil, false_imp_iff, implies_true,
      and_self]
  have hl : (header_values get_machine_description header).length = 23 := rfl
  refine ⟨rfl, hl, print_eq_lines get_machine_description header, hp, hv, ?_⟩
  rw [print_eq_lines, line_count_join_lines _ _ hp hv, hl]
  rfl

set_option maxRecDepth 100000 in
theorem header_print_lines_witness :
    line_count (MainHeader.print (fun _ => "Intel 80386")
      (decode_Ehdr .elf32 sample_ehdr_bytes)) = 23 :=
  (header_print_lines (fun _ => "Intel 80386") (decode_Ehdr .elf32 sample_ehdr_bytes)
    (fun _ => (by decide : line_count "Intel 80386" = 0)) (by
      intro i h1 h3
      have h1 : 1 ≤ i := h1
      have h3 : i ≤ 3 := h3
      interval_cases i <;> decide)).2.2.2.2.2

set_option maxRecDepth 100000 in
/-- C15 (counterexample): on the five-byte file, whose header read comes up
short, two runs of `view` that differ only in the prior content of the file
header's storage write different outputs. -/
theorem short_read_shows_storage :
    view (fun _ => true) (fun _ => "") [] (fun _ => []) five_byte_stream ≠
      view (fun _ => true) (fun _ => "") stale_header_storage (fun _ => []) five_byte_stream ∧
    e_type_line (MainHeader.parse .elf32 [] five_byte_stream).1.e_type =
      "e_type (object file type): 0x0 (No file type)\n" ∧
    e_type_line (MainHeader.parse .elf32 stale_header_storage five_byte_stream).1.e_type =
      "e_type (object file type): 0x2 (Executable file)\n" := by
  decide

/-- C15 (amended): on a stream in the good state the output of `view` never
depends on the initial read position; and when no decoding path is taken, or
the file header and the section header table of the selected layout lie within
the file, it does not depend on the prior content of the record storage either:
two runs on the same bytes give the same output and the same outcome. -/
theorem view_deterministic (can_allocate : Nat → Bool)
    (get_machine_description : Nat → String) (content : List Byte)
    (hlen : content.length < 2 ^ 63) (header_ other_ : List Byte)
    (storage other : Nat → List Byte) (pos pos2 : Nat) :
    view can_allocate get_machine_description header_ storage ⟨content, pos, false, false⟩ =
      view can_allocate get_machine_description header_ storage ⟨content, pos2, false, false⟩ ∧
    ((∀ cls, dispatch (get_object_class ⟨content, pos, false, false⟩).1 = some cls →
        sizeof_Ehdr cls ≤ content.length ∧
        (decode_Ehdr cls (content.take (sizeof_Ehdr cls))).e_shoff +
          (decode_Ehdr cls (content.take (sizeof_Ehdr cls))).e_shnum * sizeof_Shdr cls ≤
            content.length) →
      view can_allocate get_machine_description header_ storage ⟨content, pos, false, false⟩ =
        view can_allocate get_machine_description other_ other ⟨content, pos2, false, false⟩) := by
  constructor
  · rw [view_pos _ _ _ content pos, view_pos _ _ _ content pos2]
  · intro h
    have hfst := get_object_class_fst_pos content pos 0
    rw [view_pos _ _ _ content pos, view_pos _ _ _ content pos2]
    cases hd : dispatch (get_object_class ⟨content, pos, false, false⟩).1 with
    | none =>
      rw [view_none_of_dispatch _ _ _ _ (by rw [← hfst]; exact hd),
        view_none_of_dispatch _ _ _ _ (by rw [← hfst]; exact hd)]
    | some cls =>
      obtain ⟨h1, h2⟩ := h cls hd
      rw [view_eq_of_dispatch _ _ _ _ _ _ (by rw [← hfst]; exact hd),
        view_eq_of_dispatch _ _ _ _ _ _ (by rw [← hfst]; exact hd)]
      exact elfview_storage cls get_machine_description header_ other_ storage other content
        hlen h1 h2

set_option maxRecDepth 100000 in
theorem view_deterministic_witness :
    view (fun _ => true) (fun _ => "") [] (fun _ => []) ⟨sample_file, 185, false, false⟩ =
      view (fun _ => true) (fun _ => "") stale_header_storage (fun _ => [7, 7, 7, 7])
        ⟨sample_file, 0, false, false⟩ :=
  (view_deterministic (fun _ => true) (fun _ => "") sample_file (by decide) [] stale_header_storage
    (fun _ => []) (fun _ => [7, 7, 7, 7]) 185 0).2 (by
      intro cls h
      cases cls with
      | elf32 => exact ⟨by decide, by decide⟩
      | elf64 => exact absurd h (by decide))

end ElfView
